import Mathlib

/-!
Verification of the SAR mission-console repository's core logic.

Shallow embedding of:
  * `decodeGooglePolyline` / `decodeChunk` (polyline decoder utility),
  * `getSeverityMeta` (src/src/lib/event-utils.ts),
  * the MCP bridge dispatcher (src/mcp/server.mjs): argument validation,
    URL building, request construction, error formatting, response envelope,
  * `backendErrorResponse` (src/src/lib/api-route-helpers.ts).

JavaScript strings are modelled as `List Char` (or `List Nat` of UTF-16 code
units where the code does arithmetic on `charCodeAt`), JavaScript numbers as
`Int`/`ℚ` (the values manipulated here are exact in IEEE doubles), and
JavaScript 32-bit bitwise operations with explicit `% 2^32` arithmetic.
-/

namespace SAR

/-! ## Polyline decoder (src/unnamed/part_000)

The decoder works on UTF-16 code units (`charCodeAt`), modelled as `List Nat`.
JS bitwise ops coerce to 32-bit two's complement; we model the running
`result` as its unsigned 32-bit pattern and convert to a signed value at the
end exactly where the source does (`result >> 1`, `~`).  A read past the end
of the string (`charCodeAt` returning NaN) behaves as the source does:
`NaN & 0x1f` is 0 and `NaN >= 0x20` is false.
-/

/-- Interpret an unsigned 32-bit pattern as a signed 32-bit integer. -/
def toInt32 (p : Nat) : Int :=
  if p < 2 ^ 31 then (p : Int) else (p : Int) - 2 ^ 32

/-- Arithmetic (sign-propagating) right shift by one of a 32-bit pattern,
as a signed value: models JS `result >> 1`. -/
def sar1 (p : Nat) : Int :=
  toInt32 (p / 2 + (if 2 ^ 31 ≤ p then 2 ^ 31 else 0))

/-- The 32-bit pattern of `code - 63` (JS `byte`); `none` models the NaN from
reading past the end, whose `ToInt32` is 0. -/
def bytePattern (code? : Option Nat) : Nat :=
  match code? with
  | some code => (((code : Int) - 63) % (2 ^ 32)).toNat
  | none => 0

/-- JS `byte >= 0x20` (false for NaN): `code - 63 ≥ 32` iff `code ≥ 95`. -/
def byteContinues (code? : Option Nat) : Bool :=
  match code? with
  | some code => decide (95 ≤ code)
  | none => false

/-- The do/while loop of `decodeChunk`: reads 5-bit groups, ORing them into
`result` at `shift` (JS shift counts are taken mod 32), until the
continuation bit clears or the string ends.  `fuel` is an explicit recursion
budget; `s.length` always suffices because the loop guard requires the
post-increment index to stay below `s.length`. -/
def decodeChunkGo (s : List Nat) : Nat → Nat → Nat → Nat → Nat × Nat
  | fuel, result, shift, index =>
    let code? := s.get? index
    let b5 := bytePattern code? % 32
    let result' := result ||| (b5 <<< (shift % 32)) % 2 ^ 32
    let index' := index + 1
    match fuel with
    | 0 => (result', index')
    | fuel + 1 =>
      if byteContinues code? ∧ index' < s.length then
        decodeChunkGo s fuel result' (shift + 5) index'
      else
        (result', index')

/-- `decodeChunk`: unpack one zig-zag varint starting at `startIndex`,
returning the signed delta and the next index. -/
def decodeChunk (s : List Nat) (startIndex : Nat) : Int × Nat :=
  let (result, nextIndex) := decodeChunkGo s s.length 0 0 startIndex
  let value := if result % 2 = 1 then -(sar1 result + 1) else sar1 result
  (value, nextIndex)

/-- The while loop of `decodeGooglePolyline`: accumulate deltas and record
the integer `(lat, lon)` pair after each iteration, while the index is in
range.  The source multiplies by `1e-5` as it pushes each pair; that final
scaling is applied by `decodeGooglePolyline` below, which is extensionally
the same (the accumulators themselves stay integers in the source too). -/
def decodeGo (s : List Nat) : Nat → Nat → Int → Int → List (Int × Int)
  | 0, _, _, _ => []
  | fuel + 1, index, lat, lon =>
    if index < s.length then
      let rLat := decodeChunk s index
      let lat' := lat + rLat.1
      let rLon := decodeChunk s rLat.2
      let lon' := lon + rLon.1
      (lat', lon') :: decodeGo s fuel rLon.2 lat' lon'
    else
      []

/-- `decodeGooglePolyline` on a list of UTF-16 code units: the accumulated
integer pairs, each scaled by `1e-5`. -/
def decodeGooglePolyline (s : List Nat) : List (ℚ × ℚ) :=
  if s = [] then []
  else (decodeGo s s.length 0 0 0).map fun p => ((p.1 : ℚ) / 100000, (p.2 : ℚ) / 100000)

/-- UTF-16 code units of a string (all our inputs are in the BMP). -/
def strCodes (s : String) : List Nat :=
  s.data.map Char.toNat

/-- The loop of `decodeChunk` strictly advances the index. -/
theorem decodeChunkGo_index_lt (s : List Nat) (fuel result shift index : Nat) :
    index < (decodeChunkGo s fuel result shift index).2 := by
  induction fuel generalizing result shift index with
  | zero => simp [decodeChunkGo]
  | succ fuel ih =>
    simp only [decodeChunkGo]
    split
    · exact Nat.lt_trans (Nat.lt_succ_self index) (ih _ _ _)
    · simp

/-- Each emitted pair consumes at least two indices, so the output length is
bounded by half the input length (rounded up). -/
theorem decodeGo_length_le (s : List Nat) (fuel index : Nat) (lat lon : Int) :
    2 * (decodeGo s fuel index lat lon).length ≤ s.length - index + 1 := by
  induction fuel generalizing index lat lon with
  | zero => simp [decodeGo]
  | succ fuel ih =>
    simp only [decodeGo]
    split
    · rename_i h
      have h1 : index < (decodeChunk s index).2 := decodeChunkGo_index_lt ..
      have h2 : (decodeChunk s index).2 < (decodeChunk s (decodeChunk s index).2).2 :=
        decodeChunkGo_index_lt ..
      have := ih (decodeChunk s (decodeChunk s index).2).2 (lat + (decodeChunk s index).1)
        (lon + (decodeChunk s (decodeChunk s index).2).1)
      simp only [List.length_cons]
      omega
    · simp

/-- The documented reference coordinate sequence for the standard example
polyline: `[(38.5, -120.2), (40.7, -120.95), (43.252, -126.453)]`. -/
def refCoordinates : List (ℚ × ℚ) :=
  [(385 / 10, -1202 / 10), (407 / 10, -12095 / 100), (43252 / 1000, -126453 / 1000)]

/-! ## Severity partition (src/src/lib/event-utils.ts) -/

structure SeverityLevel where
  threshold : ℚ
  label : String
  className : String
deriving DecidableEq

structure SeverityMeta where
  label : String
  className : String
deriving DecidableEq

def SEVERITY_LEVELS : List SeverityLevel :=
  [ ⟨80, "Critical", "bg-destructive/10 text-destructive"⟩,
    ⟨50, "High", "bg-amber-500/10 text-amber-600 dark:text-amber-400"⟩,
    ⟨20, "Elevated", "bg-blue-500/10 text-blue-600 dark:text-blue-400"⟩ ]

/-- `getSeverityMeta`: `none` models an absent or non-number `severity`
(the `typeof severity !== 'number'` guard); a present numeric severity is
modelled as a rational. -/
def getSeverityMeta (severity : Option ℚ) : SeverityMeta :=
  match severity with
  | none => ⟨"Unknown", "bg-muted text-muted-foreground"⟩
  | some s =>
    match SEVERITY_LEVELS.find? (fun level => s ≥ level.threshold) with
    | some m => ⟨m.label, m.className⟩
    | none => ⟨"Low", "bg-emerald-500/10 text-emerald-600 dark:text-emerald-400"⟩

/-! ## Claim theorems for the decoder and the severity partition -/

/-- C6: decoding the empty string yields the empty sequence; decoding the
standard reference polyline yields three coordinate pairs, each within
`1e-5` of the documented reference coordinates. -/
theorem claim_C6 :
    decodeGooglePolyline (strCodes "") = [] ∧
    (decodeGooglePolyline (strCodes "_p~iF~ps|U_ulLnnqC_mqNvxq`@")).length = 3 ∧
    List.Forall₂ (fun (p q : ℚ × ℚ) => |p.1 - q.1| ≤ 1 / 100000 ∧ |p.2 - q.2| ≤ 1 / 100000)
      (decodeGooglePolyline (strCodes "_p~iF~ps|U_ulLnnqC_mqNvxq`@")) refCoordinates := by
  have h : decodeGo (strCodes "_p~iF~ps|U_ulLnnqC_mqNvxq`@")
      (strCodes "_p~iF~ps|U_ulLnnqC_mqNvxq`@").length 0 0 0 =
      [(3850000, -12020000), (4070000, -12095000), (4325200, -12645300)] := by decide
  have he : decodeGooglePolyline (strCodes "_p~iF~ps|U_ulLnnqC_mqNvxq`@") =
      [(77 / 2, -601 / 5), (407 / 10, -2419 / 20), (10813 / 250, -126453 / 1000)] := by
    rw [decodeGooglePolyline, if_neg (by decide), h]
    norm_num
  refine ⟨by decide, by rw [he]; rfl, ?_⟩
  rw [he, refCoordinates]
  refine List.Forall₂.cons ⟨by norm_num, by norm_num⟩ ?_
  refine List.Forall₂.cons ⟨by norm_num, by norm_num⟩ ?_
  exact List.Forall₂.cons ⟨by norm_num, by norm_num⟩ List.Forall₂.nil

/-- C7: the decoder is total on arbitrary input: every `decodeChunk` loop
strictly advances the index (so the outer loop, bounded by the string
length, terminates), and the resulting coordinate list exists and has at
most `(length + 1) / 2` entries — malformed input yields a list, never an
error. -/
theorem claim_C7 : ∀ (s : List Nat) (fuel result shift index : Nat),
    index < (decodeChunkGo s fuel result shift index).2 ∧
    2 * (decodeGooglePolyline s).length ≤ s.length + 1 := by
  intro s fuel result shift index
  refine ⟨decodeChunkGo_index_lt .., ?_⟩
  rw [decodeGooglePolyline]
  split
  · simp
  · rw [List.length_map]
    have := decodeGo_length_le s s.length 0 0 0
    omega

/-- C10: `getSeverityMeta` totally partitions numeric severities by the
thresholds 80 / 50 / 20, labels everything below 20 (negatives included)
"Low", and returns "Unknown" exactly for an absent or non-numeric
severity. -/
theorem claim_C10 : ∀ s : ℚ,
    ((getSeverityMeta (some s)).label = "Critical" ↔ 80 ≤ s) ∧
    ((getSeverityMeta (some s)).label = "High" ↔ 50 ≤ s ∧ s < 80) ∧
    ((getSeverityMeta (some s)).label = "Elevated" ↔ 20 ≤ s ∧ s < 50) ∧
    ((getSeverityMeta (some s)).label = "Low" ↔ s < 20) ∧
    (getSeverityMeta (some s)).label ≠ "Unknown" ∧
    (getSeverityMeta none).label = "Unknown" := by
  intro s
  by_cases h80 : 80 ≤ s <;> by_cases h50 : 50 ≤ s <;> by_cases h20 : 20 ≤ s <;>
    simp [getSeverityMeta, SEVERITY_LEVELS, List.find?, h80, h50, h20] <;>
    linarith

/-! ## JSON values, `JSON.stringify(payload, null, 2)` and `JSON.parse`

The bridge's envelope builder `jsonToolResult` serializes the remote payload
with `JSON.stringify(payload, null, 2)` and returns the payload itself as
`structuredContent`.  JSON values are modelled by `Json`; numeric literals
are modelled as integers (every number handled by these claims is exact).
Strings are lists of unicode scalars; `JSON.stringify`'s escaping of `"`,
`\` and control characters is embedded exactly.
-/

inductive Json where
  | null
  | bool (b : Bool)
  | num (n : Int)
  | str (s : List Char)
  | arr (elements : List Json)
  | obj (fields : List (List Char × Json))

mutual
def Json.size : Json → Nat
  | .arr xs => 1 + Json.sizeList xs
  | .obj fs => 1 + Json.sizeFields fs
  | _ => 1
def Json.sizeList : List Json → Nat
  | [] => 0
  | x :: xs => Json.size x + Json.sizeList xs
def Json.sizeFields : List (List Char × Json) → Nat
  | [] => 0
  | (_, v) :: fs => Json.size v + Json.sizeFields fs
end

def lowHexChar (n : Nat) : Char :=
  if n < 10 then Char.ofNat (48 + n) else Char.ofNat (87 + n)

/-- The `\u00XX` escape of a control character's code. -/
def uEscape (n : Nat) : List Char :=
  '\\' :: 'u' :: '0' :: '0' :: lowHexChar (n / 16) :: [lowHexChar (n % 16)]

/-- How `JSON.stringify` renders one character inside a string literal. -/
def escapeChar (c : Char) : List Char :=
  if c = '"' then ['\\', '"']
  else if c = '\\' then ['\\', '\\']
  else if c = '\x08' then ['\\', 'b']
  else if c = '\t' then ['\\', 't']
  else if c = '\n' then ['\\', 'n']
  else if c = '\x0c' then ['\\', 'f']
  else if c = '\r' then ['\\', 'r']
  else if c.toNat < 32 then uEscape c.toNat
  else [c]

def escapeString (s : List Char) : List Char :=
  (s.map escapeChar).flatten

/-- Decimal digits of a natural number (empty for 0). -/
def natDigits (m : Nat) : List Char :=
  (Nat.digits 10 m).reverse.map fun d => Char.ofNat (48 + d)

/-- JS decimal rendering of an integer. -/
def intChars (n : Int) : List Char :=
  if n < 0 then '-' :: natDigits (-n).toNat
  else if n = 0 then ['0']
  else natDigits n.toNat

/-- Two spaces of indentation per depth level (the `2` of
`JSON.stringify(payload, null, 2)`). -/
def indentChars (d : Nat) : List Char :=
  List.replicate (2 * d) ' '

mutual
def printJson (d : Nat) : Json → List Char
  | .null => "null".data
  | .bool b => if b then "true".data else "false".data
  | .num n => intChars n
  | .str s => '"' :: escapeString s ++ ['"']
  | .arr [] => ['[', ']']
  | .arr (x :: xs) =>
    '[' :: '\n' :: printElems d (x :: xs) ++ '\n' :: indentChars d ++ [']']
  | .obj [] => ['{', '}']
  | .obj (f :: fs) =>
    '{' :: '\n' :: printFields d (f :: fs) ++ '\n' :: indentChars d ++ ['}']
def printElems (d : Nat) : List Json → List Char
  | [] => []
  | [x] => indentChars (d + 1) ++ printJson (d + 1) x
  | x :: x' :: xs =>
    indentChars (d + 1) ++ printJson (d + 1) x ++ ',' :: '\n' :: printElems d (x' :: xs)
def printFields (d : Nat) : List (List Char × Json) → List Char
  | [] => []
  | [(k, v)] =>
    indentChars (d + 1) ++ '"' :: escapeString k ++ '"' :: ':' :: ' ' :: printJson (d + 1) v
  | (k, v) :: f :: fs =>
    indentChars (d + 1) ++ '"' :: escapeString k ++ '"' :: ':' :: ' ' :: printJson (d + 1) v ++
      ',' :: '\n' :: printFields d (f :: fs)
end

def isWsChar (c : Char) : Bool :=
  c = ' ' ∨ c = '\n' ∨ c = '\t' ∨ c = '\r'

def skipWs : List Char → List Char
  | [] => []
  | c :: cs => if isWsChar c then skipWs cs else c :: cs

def isDigitChar (c : Char) : Bool :=
  decide (48 ≤ c.toNat) && decide (c.toNat ≤ 57)

def digitVal (c : Char) : Nat :=
  c.toNat - 48

def hexVal (c : Char) : Option Nat :=
  if 48 ≤ c.toNat ∧ c.toNat ≤ 57 then some (c.toNat - 48)
  else if 97 ≤ c.toNat ∧ c.toNat ≤ 102 then some (c.toNat - 87)
  else if 65 ≤ c.toNat ∧ c.toNat ≤ 70 then some (c.toNat - 55)
  else none

def consStr (c : Char) : Option (List Char × List Char) → Option (List Char × List Char)
  | none => none
  | some (s, r) => some (c :: s, r)

/-- Parse the body of a JSON string literal (after the opening quote), up to
and including the closing quote. -/
def parseStringBody : List Char → Option (List Char × List Char)
  | [] => none
  | c :: cs =>
    if c = '"' then some ([], cs)
    else if c = '\\' then
      match cs with
      | [] => none
      | e :: cs' =>
        if e = '"' then consStr '"' (parseStringBody cs')
        else if e = '\\' then consStr '\\' (parseStringBody cs')
        else if e = '/' then consStr '/' (parseStringBody cs')
        else if e = 'b' then consStr '\x08' (parseStringBody cs')
        else if e = 'f' then consStr '\x0c' (parseStringBody cs')
        else if e = 'n' then consStr '\n' (parseStringBody cs')
        else if e = 'r' then consStr '\r' (parseStringBody cs')
        else if e = 't' then consStr '\t' (parseStringBody cs')
        else if e = 'u' then
          match cs' with
          | h1 :: h2 :: h3 :: h4 :: cs'' =>
            match hexVal h1, hexVal h2, hexVal h3, hexVal h4 with
            | some a, some b, some c2, some d2 =>
              consStr (Char.ofNat (4096 * a + 256 * b + 16 * c2 + d2)) (parseStringBody cs'')
            | _, _, _, _ => none
          | _ => none
        else none
    else consStr c (parseStringBody cs)

/-- Parse a maximal run of decimal digits into a natural number. -/
def parseDigits (cs : List Char) : Option (Nat × List Char) :=
  let ds := cs.takeWhile isDigitChar
  if ds = [] then none
  else some (ds.foldl (fun a c => 10 * a + digitVal c) 0, cs.dropWhile isDigitChar)

mutual
def parseVal : Nat → List Char → Option (Json × List Char)
  | 0, _ => none
  | fuel + 1, cs =>
    match skipWs cs with
    | [] => none
    | c :: rest =>
      if c = 'n' then
        match rest with
        | 'u' :: 'l' :: 'l' :: r => some (.null, r)
        | _ => none
      else if c = 't' then
        match rest with
        | 'r' :: 'u' :: 'e' :: r => some (.bool true, r)
        | _ => none
      else if c = 'f' then
        match rest with
        | 'a' :: 'l' :: 's' :: 'e' :: r => some (.bool false, r)
        | _ => none
      else if c = '"' then
        (parseStringBody rest).map fun p => (.str p.1, p.2)
      else if c = '[' then
        (if (skipWs rest).head? = some ']' then some (.arr [], (skipWs rest).tail)
         else (parseElems fuel (skipWs rest)).map fun p => (.arr p.1, p.2))
      else if c = '{' then
        (if (skipWs rest).head? = some '}' then some (.obj [], (skipWs rest).tail)
         else (parseFieldsP fuel (skipWs rest)).map fun p => (.obj p.1, p.2))
      else if c = '-' then
        (parseDigits rest).map fun p => (.num (-(p.1 : Int)), p.2)
      else if isDigitChar c then
        (parseDigits (c :: rest)).map fun p => (.num ((p.1 : Nat) : Int), p.2)
      else none
def parseElems : Nat → List Char → Option (List Json × List Char)
  | 0, _ => none
  | fuel + 1, cs =>
    match parseVal fuel cs with
    | none => none
    | some (v, r1) =>
      match skipWs r1 with
      | ',' :: r2 =>
        match parseElems fuel r2 with
        | some (vs, r3) => some (v :: vs, r3)
        | none => none
      | ']' :: r2 => some ([v], r2)
      | _ => none
def parseFieldsP : Nat → List Char → Option (List (List Char × Json) × List Char)
  | 0, _ => none
  | fuel + 1, cs =>
    match skipWs cs with
    | '"' :: r0 =>
      (match parseStringBody r0 with
       | none => none
       | some (k, r1) =>
         match skipWs r1 with
         | ':' :: r2 =>
           (match parseVal fuel r2 with
            | none => none
            | some (v, r3) =>
              match skipWs r3 with
              | ',' :: r4 =>
                (match parseFieldsP fuel r4 with
                 | some (fs, r5) => some ((k, v) :: fs, r5)
                 | none => none)
              | '}' :: r4 => some ([(k, v)], r4)
              | _ => none)
         | _ => none)
    | _ => none
end

/-- `JSON.parse`, restricted to the grammar `JSON.stringify` emits (integer
numerics); the recursion budget `2 * length + 2` never runs out because
every two recursive steps consume at least one input character. -/
def parseJson (s : List Char) : Option Json :=
  match parseVal (2 * s.length + 2) s with
  | some (v, rest) => if skipWs rest = [] then some v else none
  | none => none

/-! ### Serialize-then-parse round trip: supporting lemmas -/

theorem Json.size_pos : ∀ v : Json, 1 ≤ Json.size v
  | .null => le_refl 1
  | .bool _ => le_refl 1
  | .num _ => le_refl 1
  | .str _ => le_refl 1
  | .arr xs => by rw [Json.size]; omega
  | .obj fs => by rw [Json.size]; omega

theorem skipWs_ws_cons (c : Char) (h : isWsChar c = true) (l : List Char) :
    skipWs (c :: l) = skipWs l := by
  simp [skipWs, h]

theorem skipWs_not_ws (c : Char) (h : isWsChar c = false) (l : List Char) :
    skipWs (c :: l) = c :: l := by
  simp [skipWs, h]

theorem skipWs_indent (d : Nat) (l : List Char) :
    skipWs (indentChars d ++ l) = skipWs l := by
  rw [indentChars]
  induction 2 * d with
  | zero => simp
  | succ n ih => rw [List.replicate_succ]; simpa [skipWs_ws_cons ' ' (by decide)] using ih

/-- The digit characters and their values. -/
theorem digitVal_char (m : Nat) (h : m < 10) :
    isDigitChar (Char.ofNat (48 + m)) = true ∧ digitVal (Char.ofNat (48 + m)) = m := by
  interval_cases m <;> exact ⟨by decide, by decide⟩

theorem hexVal_lowHexChar (m : Nat) (h : m < 16) :
    hexVal (lowHexChar m) = some m := by
  interval_cases m <;> decide

theorem takeWhile_append_all (p : Char → Bool) :
    ∀ l r : List Char, (∀ c ∈ l, p c = true) → (∀ c, r.head? = some c → p c = false) →
      (l ++ r).takeWhile p = l ∧ (l ++ r).dropWhile p = r
  | [], r, _, hr => by
    cases r with
    | nil => simp
    | cons c r' =>
      have := hr c rfl
      simp [List.takeWhile, List.dropWhile, this]
  | c :: l, r, hl, hr => by
    have hc : p c = true := hl c (by simp)
    have ih := takeWhile_append_all p l r (fun x hx => hl x (by simp [hx])) hr
    simp [List.takeWhile, List.dropWhile, hc, ih.1, ih.2]

theorem natDigits_all_digits (m : Nat) :
    ∀ c ∈ natDigits m, isDigitChar c = true := by
  intro c hc
  rw [natDigits] at hc
  simp only [List.mem_map, List.mem_reverse] at hc
  obtain ⟨d, hd, rfl⟩ := hc
  exact (digitVal_char d (Nat.digits_lt_base (by norm_num) hd)).1

theorem foldl_digits (L : List Nat) :
    ∀ a : Nat, (∀ d ∈ L, d < 10) →
      (L.map fun d => Char.ofNat (48 + d)).foldl (fun a c => 10 * a + digitVal c) a =
        a * 10 ^ L.length + Nat.ofDigits 10 L.reverse := by
  induction L with
  | nil => intro a _; simp
  | cons d L ih =>
    intro a hL
    have hd : d < 10 := hL d (by simp)
    have := ih (10 * a + d) (fun x hx => hL x (by simp [hx]))
    simp only [List.map_cons, List.foldl_cons, (digitVal_char d hd).2, this,
      List.reverse_cons, Nat.ofDigits_append, List.length_cons, List.length_reverse]
    ring_nf
    simp [Nat.ofDigits]
    ring

/-- Parsing the decimal rendering of a nonzero natural: the digit run is
taken greedily, so the remainder must not begin with a digit. -/
theorem parseDigits_natDigits (m : Nat) (hm : m ≠ 0) (rest : List Char)
    (hrest : ∀ c, rest.head? = some c → isDigitChar c = false) :
    parseDigits (natDigits m ++ rest) = some (m, rest) := by
  have hsplit := takeWhile_append_all isDigitChar (natDigits m) rest
    (natDigits_all_digits m) hrest
  have hne : natDigits m ≠ [] := by
    rw [natDigits]
    simp [Nat.digits_ne_nil_iff_ne_zero, hm]
  rw [parseDigits]
  simp only [hsplit.1, hsplit.2, if_neg hne]
  rw [natDigits, foldl_digits _ 0 (fun d hd => Nat.digits_lt_base (by norm_num) (by simpa using hd))]
  simp [Nat.ofDigits_digits]

theorem escapeString_cons (c : Char) (s : List Char) :
    escapeString (c :: s) = escapeChar c ++ escapeString s := by
  simp [escapeString]

/-- Un-escaping inverts `JSON.stringify`'s string escaping. -/
theorem parseStringBody_escape (s : List Char) (rest : List Char) :
    parseStringBody (escapeString s ++ '"' :: rest) = some (s, rest) := by
  induction s with
  | nil =>
    rw [show escapeString [] = [] from rfl, List.nil_append, parseStringBody.eq_def]
    simp
  | cons c s ih =>
    rw [escapeString_cons, List.append_assoc, escapeChar]
    by_cases h1 : c = '"'
    · subst h1; rw [parseStringBody.eq_def]; simp [consStr, ih]
    · rw [if_neg h1]
      by_cases h2 : c = '\\'
      · subst h2; rw [parseStringBody.eq_def]; simp [consStr, ih]
      · rw [if_neg h2]
        by_cases h3 : c = '\x08'
        · subst h3; rw [parseStringBody.eq_def]; simp [consStr, ih]
        · rw [if_neg h3]
          by_cases h4 : c = '\t'
          · subst h4; rw [parseStringBody.eq_def]; simp [consStr, ih]
          · rw [if_neg h4]
            by_cases h5 : c = '\n'
            · subst h5; rw [parseStringBody.eq_def]; simp [consStr, ih]
            · rw [if_neg h5]
              by_cases h6 : c = '\x0c'
              · subst h6; rw [parseStringBody.eq_def]; simp [consStr, ih]
              · rw [if_neg h6]
                by_cases h7 : c = '\r'
                · subst h7; rw [parseStringBody.eq_def]; simp [consStr, ih]
                · rw [if_neg h7]
                  by_cases h8 : c.toNat < 32
                  · rw [if_pos h8]
                    have hhi : hexVal (lowHexChar (c.toNat / 16)) = some (c.toNat / 16) :=
                      hexVal_lowHexChar _ (by omega)
                    have hlo : hexVal (lowHexChar (c.toNat % 16)) = some (c.toNat % 16) :=
                      hexVal_lowHexChar _ (by omega)
                    have heq : Char.ofNat (4096 * 0 + 256 * 0 + 16 * (c.toNat / 16) +
                        c.toNat % 16) = c := by
                      rw [show 4096 * 0 + 256 * 0 + 16 * (c.toNat / 16) + c.toNat % 16 =
                        c.toNat from by omega, Char.ofNat_toNat]
                    have heq2 : Char.ofNat (16 * (c.toNat / 16) + c.toNat % 16) = c := by
                      rw [show 16 * (c.toNat / 16) + c.toNat % 16 = c.toNat from by omega,
                        Char.ofNat_toNat]
                    simp only [uEscape, List.cons_append, List.nil_append]
                    rw [parseStringBody.eq_def]
                    simp [consStr, hhi, hlo, ih, heq, heq2,
                      show hexVal '0' = some 0 from by decide]
                  · rw [if_neg h8]
                    simp only [List.cons_append, List.nil_append]
                    rw [parseStringBody.eq_def]
                    simp [consStr, ih, h1, h2]

theorem parseDigits_zero (rest : List Char)
    (hrest : ∀ c, rest.head? = some c → isDigitChar c = false) :
    parseDigits ('0' :: rest) = some (0, rest) := by
  have hsplit := takeWhile_append_all isDigitChar ['0'] rest (by decide) hrest
  rw [parseDigits]
  simp only [List.singleton_append] at hsplit
  simp [hsplit.1, hsplit.2, digitVal]

/-- The remainder after a printed value must not begin with a digit
(numbers are parsed greedily); every separator the printer emits after a
value satisfies this. -/
def noDigitHead (l : List Char) : Prop :=
  ∀ c, l.head? = some c → isDigitChar c = false

theorem natDigits_ne_nil {m : Nat} (hm : m ≠ 0) : natDigits m ≠ [] := by
  rw [natDigits]
  simp [Nat.digits_ne_nil_iff_ne_zero, hm]

theorem intChars_head (n : Int) :
    ∃ c cs, intChars n = c :: cs ∧ (c = '-' ∨ isDigitChar c = true) := by
  rw [intChars]
  split
  · exact ⟨'-', _, rfl, Or.inl rfl⟩
  · split
    · exact ⟨'0', [], rfl, Or.inr (by decide)⟩
    · rename_i h0 hne
      have hm : n.toNat ≠ 0 := by omega
      obtain ⟨c, cs, hc⟩ := List.exists_cons_of_ne_nil (natDigits_ne_nil hm)
      refine ⟨c, cs, hc, Or.inr ?_⟩
      exact natDigits_all_digits n.toNat c (by rw [hc]; simp)

theorem printJson_head (d : Nat) (v : Json) :
    ∃ c cs, printJson d v = c :: cs ∧
      (c = 'n' ∨ c = 't' ∨ c = 'f' ∨ c = '"' ∨ c = '[' ∨ c = '{' ∨ c = '-' ∨
        isDigitChar c = true) := by
  cases v with
  | null => exact ⟨'n', _, rfl, by tauto⟩
  | bool b =>
    cases b
    · exact ⟨'f', _, rfl, by tauto⟩
    · exact ⟨'t', _, rfl, by tauto⟩
  | num n =>
    obtain ⟨c, cs, hc, hd⟩ := intChars_head n
    exact ⟨c, cs, by rw [printJson]; exact hc, by tauto⟩
  | str s => exact ⟨'"', _, rfl, by tauto⟩
  | arr xs => cases xs with
    | nil => exact ⟨'[', _, rfl, by tauto⟩
    | cons x xs => exact ⟨'[', _, rfl, by tauto⟩
  | obj fs => cases fs with
    | nil => exact ⟨'{', _, rfl, by tauto⟩
    | cons f fs => exact ⟨'{', _, rfl, by tauto⟩

theorem valueStart_props (c : Char)
    (h : c = 'n' ∨ c = 't' ∨ c = 'f' ∨ c = '"' ∨ c = '[' ∨ c = '{' ∨ c = '-' ∨
      isDigitChar c = true) :
    isWsChar c = false ∧ c ≠ ']' ∧ c ≠ '}' := by
  rcases h with rfl | rfl | rfl | rfl | rfl | rfl | rfl | h
  · exact ⟨by decide, by decide, by decide⟩
  · exact ⟨by decide, by decide, by decide⟩
  · exact ⟨by decide, by decide, by decide⟩
  · exact ⟨by decide, by decide, by decide⟩
  · exact ⟨by decide, by decide, by decide⟩
  · exact ⟨by decide, by decide, by decide⟩
  · exact ⟨by decide, by decide, by decide⟩
  · refine ⟨?_, ?_, ?_⟩
    · by_contra hw
      rw [Bool.not_eq_false] at hw
      rw [isWsChar] at hw
      rcases of_decide_eq_true hw with rfl | rfl | rfl | rfl <;>
        exact absurd h (by decide)
    · rintro rfl; exact absurd h (by decide)
    · rintro rfl; exact absurd h (by decide)

/-- `skipWs` leaves a printed value alone: it never starts with whitespace. -/
theorem skipWs_print (d : Nat) (v : Json) (l : List Char) :
    skipWs (printJson d v ++ l) = printJson d v ++ l := by
  obtain ⟨c, cs, hc, hd⟩ := printJson_head d v
  rw [hc, List.cons_append, skipWs_not_ws c (valueStart_props c hd).1]

theorem skipWs_skipWs (l : List Char) : skipWs (skipWs l) = skipWs l := by
  induction l with
  | nil => rfl
  | cons c cs ih =>
    by_cases h : isWsChar c = true
    · rw [skipWs_ws_cons c h, ih]
    · rw [skipWs_not_ws c (by simpa using h), skipWs_not_ws c (by simpa using h)]

/-- `parseVal fuel` depends on its input only through `skipWs`. -/
theorem parseVal_congr (fuel : Nat) (cs₁ cs₂ : List Char) (h : skipWs cs₁ = skipWs cs₂) :
    parseVal fuel cs₁ = parseVal fuel cs₂ := by
  cases fuel with
  | zero => rfl
  | succ f => rw [parseVal.eq_2, parseVal.eq_2, h]

theorem parseElems_congr (fuel : Nat) (cs₁ cs₂ : List Char) (h : skipWs cs₁ = skipWs cs₂) :
    parseElems fuel cs₁ = parseElems fuel cs₂ := by
  cases fuel with
  | zero => rfl
  | succ f => rw [parseElems.eq_2, parseElems.eq_2, parseVal_congr f cs₁ cs₂ h]

theorem parseFieldsP_congr (fuel : Nat) (cs₁ cs₂ : List Char) (h : skipWs cs₁ = skipWs cs₂) :
    parseFieldsP fuel cs₁ = parseFieldsP fuel cs₂ := by
  cases fuel with
  | zero => rfl
  | succ f => rw [parseFieldsP.eq_2, parseFieldsP.eq_2, h]

theorem isDigit_ne_starters (c : Char) (h : isDigitChar c = true) :
    ¬c = 'n' ∧ ¬c = 't' ∧ ¬c = 'f' ∧ ¬c = '"' ∧ ¬c = '[' ∧ ¬c = '{' ∧ ¬c = '-' := by
  refine ⟨?_, ?_, ?_, ?_, ?_, ?_, ?_⟩ <;> rintro rfl <;> exact absurd h (by decide)

theorem noDigitHead_cons (c : Char) (h : isDigitChar c = false) (l : List Char) :
    noDigitHead (c :: l) := by
  intro c' hc'
  simp only [List.head?_cons, Option.some.injEq] at hc'
  rw [← hc']
  exact h

theorem noDigitHead_nil : noDigitHead [] := by
  intro c hc
  simp at hc

/-! ### One-step reductions of `parseVal` on each kind of leading character -/

theorem parseVal_succ_null (f : Nat) (r : List Char) :
    parseVal (f + 1) ('n' :: 'u' :: 'l' :: 'l' :: r) = some (.null, r) := by
  rw [parseVal.eq_2, skipWs_not_ws 'n' (by decide)]
  rfl

theorem parseVal_succ_true (f : Nat) (r : List Char) :
    parseVal (f + 1) ('t' :: 'r' :: 'u' :: 'e' :: r) = some (.bool true, r) := by
  rw [parseVal.eq_2, skipWs_not_ws 't' (by decide)]
  rfl

theorem parseVal_succ_false (f : Nat) (r : List Char) :
    parseVal (f + 1) ('f' :: 'a' :: 'l' :: 's' :: 'e' :: r) = some (.bool false, r) := by
  rw [parseVal.eq_2, skipWs_not_ws 'f' (by decide)]
  rfl

theorem parseVal_succ_quote (f : Nat) (r : List Char) :
    parseVal (f + 1) ('"' :: r) =
      (parseStringBody r).map fun p => (Json.str p.1, p.2) := by
  rw [parseVal.eq_2, skipWs_not_ws '"' (by decide)]
  rfl

theorem parseVal_succ_bracket (f : Nat) (r : List Char) :
    parseVal (f + 1) ('[' :: r) =
      (if (skipWs r).head? = some ']' then some (.arr [], (skipWs r).tail)
       else (parseElems f (skipWs r)).map fun p => (Json.arr p.1, p.2)) := by
  rw [parseVal.eq_2, skipWs_not_ws '[' (by decide)]
  rfl

theorem parseVal_succ_brace (f : Nat) (r : List Char) :
    parseVal (f + 1) ('{' :: r) =
      (if (skipWs r).head? = some '}' then some (.obj [], (skipWs r).tail)
       else (parseFieldsP f (skipWs r)).map fun p => (Json.obj p.1, p.2)) := by
  rw [parseVal.eq_2, skipWs_not_ws '{' (by decide)]
  rfl

theorem parseVal_succ_minus (f : Nat) (r : List Char) :
    parseVal (f + 1) ('-' :: r) =
      (parseDigits r).map fun p => (Json.num (-(p.1 : Int)), p.2) := by
  rw [parseVal.eq_2, skipWs_not_ws '-' (by decide)]
  rfl

theorem parseVal_succ_digit (f : Nat) (c : Char) (h : isDigitChar c = true) (r : List Char) :
    parseVal (f + 1) (c :: r) =
      (parseDigits (c :: r)).map fun p => (Json.num ((p.1 : Nat) : Int), p.2) := by
  obtain ⟨h1, h2, h3, h4, h5, h6, h7⟩ := isDigit_ne_starters c h
  rw [parseVal.eq_2, skipWs_not_ws c (valueStart_props c (by tauto)).1]
  simp [h1, h2, h3, h4, h5, h6, h7, h]

/-- The first character after skipping the indentation of a printed element
list is the first character of the first element's printed value. -/
theorem skipWs_printElems_head (d : Nat) (x : Json) (xs : List Json) (l : List Char) :
    ∃ c cs, skipWs (printElems d (x :: xs) ++ l) = c :: cs ∧
      (c = 'n' ∨ c = 't' ∨ c = 'f' ∨ c = '"' ∨ c = '[' ∨ c = '{' ∨ c = '-' ∨
        isDigitChar c = true) := by
  obtain ⟨c, cs, hc, hst⟩ := printJson_head (d + 1) x
  cases xs with
  | nil =>
    refine ⟨c, cs ++ l, ?_, hst⟩
    rw [show printElems d [x] = indentChars (d + 1) ++ printJson (d + 1) x from rfl]
    simp only [List.append_assoc, List.cons_append, List.nil_append]
    rw [skipWs_indent, hc, List.cons_append, skipWs_not_ws c (valueStart_props c hst).1]
  | cons x' xs' =>
    refine ⟨c, cs ++ (',' :: '\n' :: (printElems d (x' :: xs') ++ l)), ?_, hst⟩
    rw [show printElems d (x :: x' :: xs') = indentChars (d + 1) ++ printJson (d + 1) x ++
      ',' :: '\n' :: printElems d (x' :: xs') from rfl]
    simp only [List.append_assoc, List.cons_append, List.nil_append]
    rw [skipWs_indent, hc, List.cons_append, skipWs_not_ws c (valueStart_props c hst).1]

/-- The first character after skipping the indentation of a printed field
list is the opening quote of the first key. -/
theorem skipWs_printFields_head (d : Nat) (k : List Char) (v : Json)
    (fs : List (List Char × Json)) (l : List Char) :
    ∃ cs, skipWs (printFields d ((k, v) :: fs) ++ l) = '"' :: cs := by
  cases fs with
  | nil =>
    refine ⟨escapeString k ++ ('"' :: ':' :: ' ' :: (printJson (d + 1) v ++ l)), ?_⟩
    rw [show printFields d [(k, v)] = indentChars (d + 1) ++ '"' :: escapeString k ++
      '"' :: ':' :: ' ' :: printJson (d + 1) v from rfl]
    simp only [List.append_assoc, List.cons_append, List.nil_append]
    rw [skipWs_indent, skipWs_not_ws '"' (by decide)]
  | cons f' fs' =>
    refine ⟨escapeString k ++ ('"' :: ':' :: ' ' :: (printJson (d + 1) v ++
      (',' :: '\n' :: (printFields d (f' :: fs') ++ l)))), ?_⟩
    rw [show printFields d ((k, v) :: f' :: fs') = indentChars (d + 1) ++ '"' ::
      escapeString k ++ '"' :: ':' :: ' ' :: printJson (d + 1) v ++
      ',' :: '\n' :: printFields d (f' :: fs') from rfl]
    simp only [List.append_assoc, List.cons_append, List.nil_append]
    rw [skipWs_indent, skipWs_not_ws '"' (by decide)]

/-- Parsing the element list of a printed non-empty array, given the
round-trip property for values of size at most `n` (the strong induction
hypothesis of `parseVal_printJson`). -/
theorem parseElems_printElems (n : Nat)
    (ih : ∀ (v : Json) (d fuel : Nat) (rest : List Char), Json.size v ≤ n →
      2 * Json.size v ≤ fuel → noDigitHead rest →
      parseVal fuel (printJson d v ++ rest) = some (v, rest)) :
    ∀ (xs : List Json) (x : Json) (d f2 : Nat) (rest2 : List Char),
      Json.sizeList (x :: xs) ≤ n → 2 * Json.sizeList (x :: xs) + 1 ≤ f2 →
      parseElems f2 (printElems d (x :: xs) ++ ('\n' :: (indentChars d ++ ']' :: rest2))) =
        some (x :: xs, rest2) := by
  intro xs
  induction xs with
  | nil =>
    intro x d f2 rest2 hsz hf
    have hx : Json.sizeList [x] = Json.size x + 0 := rfl
    have hp := Json.size_pos x
    obtain ⟨f3, rfl⟩ : ∃ f3, f2 = f3 + 1 := ⟨f2 - 1, by omega⟩
    rw [parseElems.eq_2]
    rw [show printElems d [x] = indentChars (d + 1) ++ printJson (d + 1) x from rfl]
    simp only [List.append_assoc, List.cons_append, List.nil_append]
    rw [parseVal_congr f3
      (indentChars (d + 1) ++ (printJson (d + 1) x ++ '\n' :: (indentChars d ++ ']' :: rest2)))
      (printJson (d + 1) x ++ '\n' :: (indentChars d ++ ']' :: rest2))
      (by rw [skipWs_indent]),
      ih x (d + 1) f3 _ (by omega) (by omega) (noDigitHead_cons '\n' (by decide) _)]
    simp [skipWs_ws_cons '\n' (by decide), skipWs_indent, skipWs_not_ws ']' (by decide)]
  | cons x' xs' ihl =>
    intro x d f2 rest2 hsz hf
    have hx : Json.sizeList (x :: x' :: xs') = Json.size x + Json.sizeList (x' :: xs') := rfl
    have hx2 : Json.sizeList (x' :: xs') = Json.size x' + Json.sizeList xs' := rfl
    have hp := Json.size_pos x
    have hp2 := Json.size_pos x'
    obtain ⟨f3, rfl⟩ : ∃ f3, f2 = f3 + 1 := ⟨f2 - 1, by omega⟩
    rw [parseElems.eq_2]
    rw [show printElems d (x :: x' :: xs') = indentChars (d + 1) ++ printJson (d + 1) x ++
      ',' :: '\n' :: printElems d (x' :: xs') from rfl]
    simp only [List.append_assoc, List.cons_append, List.nil_append]
    rw [parseVal_congr f3
      (indentChars (d + 1) ++ (printJson (d + 1) x ++
        ',' :: '\n' :: (printElems d (x' :: xs') ++ ('\n' :: (indentChars d ++ ']' :: rest2)))))
      (printJson (d + 1) x ++
        ',' :: '\n' :: (printElems d (x' :: xs') ++ ('\n' :: (indentChars d ++ ']' :: rest2))))
      (by rw [skipWs_indent]),
      ih x (d + 1) f3 _ (by omega) (by omega) (noDigitHead_cons ',' (by decide) _)]
    simp only [skipWs_not_ws ',' (by decide)]
    rw [parseElems_congr f3 ('\n' :: (printElems d (x' :: xs') ++
        ('\n' :: (indentChars d ++ ']' :: rest2))))
      (printElems d (x' :: xs') ++ ('\n' :: (indentChars d ++ ']' :: rest2)))
      (by rw [skipWs_ws_cons '\n' (by decide)]),
      ihl x' d f3 rest2 (by omega) (by omega)]

/-- Parsing the field list of a printed non-empty object, given the
round-trip property for values of size at most `n`. -/
theorem parseFieldsP_printFields (n : Nat)
    (ih : ∀ (v : Json) (d fuel : Nat) (rest : List Char), Json.size v ≤ n →
      2 * Json.size v ≤ fuel → noDigitHead rest →
      parseVal fuel (printJson d v ++ rest) = some (v, rest)) :
    ∀ (fs : List (List Char × Json)) (k : List Char) (v : Json) (d f2 : Nat)
      (rest2 : List Char),
      Json.sizeFields ((k, v) :: fs) ≤ n → 2 * Json.sizeFields ((k, v) :: fs) + 1 ≤ f2 →
      parseFieldsP f2 (printFields d ((k, v) :: fs) ++
        ('\n' :: (indentChars d ++ '}' :: rest2))) = some ((k, v) :: fs, rest2) := by
  intro fs
  induction fs with
  | nil =>
    intro k v d f2 rest2 hsz hf
    have hx : Json.sizeFields [(k, v)] = Json.size v + 0 := rfl
    have hp := Json.size_pos v
    obtain ⟨f3, rfl⟩ : ∃ f3, f2 = f3 + 1 := ⟨f2 - 1, by omega⟩
    rw [parseFieldsP.eq_2]
    rw [show printFields d [(k, v)] = indentChars (d + 1) ++ '"' :: escapeString k ++
      '"' :: ':' :: ' ' :: printJson (d + 1) v from rfl]
    simp only [List.append_assoc, List.cons_append, List.nil_append]
    rw [skipWs_indent, skipWs_not_ws '"' (by decide)]
    simp only [parseStringBody_escape, skipWs_not_ws ':' (by decide)]
    rw [parseVal_congr f3
      (' ' :: (printJson (d + 1) v ++ '\n' :: (indentChars d ++ '}' :: rest2)))
      (printJson (d + 1) v ++ '\n' :: (indentChars d ++ '}' :: rest2))
      (by rw [skipWs_ws_cons ' ' (by decide)]),
      ih v (d + 1) f3 _ (by omega) (by omega) (noDigitHead_cons '\n' (by decide) _)]
    simp [skipWs_ws_cons '\n' (by decide), skipWs_indent, skipWs_not_ws '}' (by decide)]
  | cons f' fs' ihl =>
    intro k v d f2 rest2 hsz hf
    obtain ⟨k', v'⟩ := f'
    have hx : Json.sizeFields ((k, v) :: (k', v') :: fs') =
      Json.size v + Json.sizeFields ((k', v') :: fs') := rfl
    have hx2 : Json.sizeFields ((k', v') :: fs') = Json.size v' + Json.sizeFields fs' := rfl
    have hp := Json.size_pos v
    have hp2 := Json.size_pos v'
    obtain ⟨f3, rfl⟩ : ∃ f3, f2 = f3 + 1 := ⟨f2 - 1, by omega⟩
    rw [parseFieldsP.eq_2]
    rw [show printFields d ((k, v) :: (k', v') :: fs') = indentChars (d + 1) ++ '"' ::
      escapeString k ++ '"' :: ':' :: ' ' :: printJson (d + 1) v ++
      ',' :: '\n' :: printFields d ((k', v') :: fs') from rfl]
    simp only [List.append_assoc, List.cons_append, List.nil_append]
    rw [skipWs_indent, skipWs_not_ws '"' (by decide)]
    simp only [parseStringBody_escape, skipWs_not_ws ':' (by decide)]
    rw [parseVal_congr f3
      (' ' :: (printJson (d + 1) v ++
        ',' :: '\n' :: (printFields d ((k', v') :: fs') ++
          ('\n' :: (indentChars d ++ '}' :: rest2)))))
      (printJson (d + 1) v ++
        ',' :: '\n' :: (printFields d ((k', v') :: fs') ++
          ('\n' :: (indentChars d ++ '}' :: rest2))))
      (by rw [skipWs_ws_cons ' ' (by decide)]),
      ih v (d + 1) f3 _ (by omega) (by omega) (noDigitHead_cons ',' (by decide) _)]
    simp only [skipWs_not_ws ',' (by decide)]
    rw [parseFieldsP_congr f3 ('\n' :: (printFields d ((k', v') :: fs') ++
        ('\n' :: (indentChars d ++ '}' :: rest2))))
      (printFields d ((k', v') :: fs') ++ ('\n' :: (indentChars d ++ '}' :: rest2)))
      (by rw [skipWs_ws_cons '\n' (by decide)]),
      ihl k' v' d f3 rest2 (by omega) (by omega)]

/-- Main round trip: parsing a printed JSON value (with any trailing
remainder that cannot extend a numeric literal) recovers the value. -/
theorem parseVal_printJson : ∀ (n : Nat) (val : Json) (d fuel : Nat) (tl : List Char),
    Json.size val ≤ n → 2 * Json.size val ≤ fuel → noDigitHead tl →
    parseVal fuel (printJson d val ++ tl) = some (val, tl) := by
  intro n
  induction n with
  | zero =>
    intro val d fuel tl hv _ _
    have := Json.size_pos val
    omega
  | succ n ih =>
    intro val d fuel tl hv hfuel hrest
    have hp := Json.size_pos val
    obtain ⟨f, rfl⟩ : ∃ f, fuel = f + 1 := ⟨fuel - 1, by omega⟩
    cases val with
    | null =>
      rw [show printJson d Json.null = ['n', 'u', 'l', 'l'] from rfl]
      simp only [List.cons_append, List.nil_append]
      exact parseVal_succ_null f tl
    | bool b =>
      cases b with
      | false =>
        rw [show printJson d (Json.bool false) = ['f', 'a', 'l', 's', 'e'] from rfl]
        simp only [List.cons_append, List.nil_append]
        exact parseVal_succ_false f tl
      | true =>
        rw [show printJson d (Json.bool true) = ['t', 'r', 'u', 'e'] from rfl]
        simp only [List.cons_append, List.nil_append]
        exact parseVal_succ_true f tl
    | num m =>
      rw [show printJson d (Json.num m) = intChars m from rfl, intChars]
      rcases lt_trichotomy m 0 with hm | hm | hm
      · rw [if_pos hm]
        simp only [List.cons_append]
        rw [parseVal_succ_minus, parseDigits_natDigits (-m).toNat (by omega) tl hrest]
        have hcast : (((-m).toNat : Nat) : Int) = -m := Int.toNat_of_nonneg (by omega)
        simp [hcast]
      · subst hm
        rw [if_neg (by omega), if_pos rfl]
        simp only [List.cons_append, List.nil_append]
        rw [parseVal_succ_digit f '0' (by decide), parseDigits_zero tl hrest]
        simp
      · rw [if_neg (by omega), if_neg (by omega)]
        obtain ⟨c0, cs0, hc0⟩ :=
          List.exists_cons_of_ne_nil (natDigits_ne_nil (show m.toNat ≠ 0 by omega))
        have hdig : isDigitChar c0 = true := natDigits_all_digits _ c0 (by rw [hc0]; simp)
        rw [hc0]
        simp only [List.cons_append]
        rw [parseVal_succ_digit f c0 hdig]
        rw [show c0 :: (cs0 ++ tl) = natDigits m.toNat ++ tl from by
          rw [hc0, List.cons_append]]
        rw [parseDigits_natDigits m.toNat (by omega) tl hrest]
        have hcast : ((m.toNat : Nat) : Int) = m := Int.toNat_of_nonneg (by omega)
        simp [hcast]
    | str s =>
      rw [show printJson d (Json.str s) = '"' :: escapeString s ++ ['"'] from rfl]
      simp only [List.cons_append, List.append_assoc, List.nil_append]
      rw [parseVal_succ_quote, parseStringBody_escape s tl]
      rfl
    | arr xs =>
      cases xs with
      | nil =>
        rw [show printJson d (Json.arr []) = ['[', ']'] from rfl]
        simp only [List.cons_append, List.nil_append]
        rw [parseVal_succ_bracket, skipWs_not_ws ']' (by decide)]
        simp
      | cons x xs =>
        have hsz : Json.size (Json.arr (x :: xs)) = 1 + Json.sizeList (x :: xs) := rfl
        rw [show printJson d (Json.arr (x :: xs)) =
          '[' :: '\n' :: printElems d (x :: xs) ++ '\n' :: indentChars d ++ [']'] from rfl]
        simp only [List.cons_append, List.append_assoc, List.nil_append]
        rw [parseVal_succ_bracket, skipWs_ws_cons '\n' (by decide)]
        obtain ⟨c0, cs0, hsk, hst⟩ :=
          skipWs_printElems_head d x xs ('\n' :: (indentChars d ++ ']' :: tl))
        rw [hsk, if_neg (by simp [(valueStart_props c0 hst).2.1]), ← hsk,
          parseElems_congr f _ (printElems d (x :: xs) ++
            ('\n' :: (indentChars d ++ ']' :: tl))) (skipWs_skipWs _),
          parseElems_printElems n ih xs x d f tl (by omega) (by omega)]
        rfl
    | obj fs =>
      cases fs with
      | nil =>
        rw [show printJson d (Json.obj []) = ['{', '}'] from rfl]
        simp only [List.cons_append, List.nil_append]
        rw [parseVal_succ_brace, skipWs_not_ws '}' (by decide)]
        simp
      | cons kv fs =>
        obtain ⟨k, val⟩ := kv
        have hsz : Json.size (Json.obj ((k, val) :: fs)) =
          1 + Json.sizeFields ((k, val) :: fs) := rfl
        rw [show printJson d (Json.obj ((k, val) :: fs)) =
          '{' :: '\n' :: printFields d ((k, val) :: fs) ++ '\n' :: indentChars d ++ ['}']
          from rfl]
        simp only [List.cons_append, List.append_assoc, List.nil_append]
        rw [parseVal_succ_brace, skipWs_ws_cons '\n' (by decide)]
        obtain ⟨cs0, hsk⟩ :=
          skipWs_printFields_head d k val fs ('\n' :: (indentChars d ++ '}' :: tl))
        rw [hsk, if_neg (by simp), ← hsk,
          parseFieldsP_congr f _ (printFields d ((k, val) :: fs) ++
            ('\n' :: (indentChars d ++ '}' :: tl))) (skipWs_skipWs _),
          parseFieldsP_printFields n ih fs k val d f tl (by omega) (by omega)]
        rfl

theorem intChars_length_pos (m : Int) : 1 ≤ (intChars m).length := by
  obtain ⟨c, cs, hc, _⟩ := intChars_head m
  rw [hc]
  simp

/-- Every node of a JSON value occupies at least one character of its
printed form, so the parser's length-based recursion budget suffices. -/
theorem size_le_printLength : ∀ (n : Nat) (v : Json), Json.size v ≤ n → ∀ d : Nat,
    Json.size v ≤ (printJson d v).length := by
  intro n
  induction n with
  | zero =>
    intro v hv
    have := Json.size_pos v
    omega
  | succ n ih =>
    intro v hv d
    cases v with
    | null =>
      rw [show printJson d Json.null = ['n', 'u', 'l', 'l'] from rfl,
        show Json.size Json.null = 1 from rfl]
      simp
    | bool b =>
      cases b with
      | false =>
        rw [show printJson d (Json.bool false) = ['f', 'a', 'l', 's', 'e'] from rfl,
          show Json.size (Json.bool false) = 1 from rfl]
        simp
      | true =>
        rw [show printJson d (Json.bool true) = ['t', 'r', 'u', 'e'] from rfl,
          show Json.size (Json.bool true) = 1 from rfl]
        simp
    | num m =>
      rw [show printJson d (Json.num m) = intChars m from rfl,
        show Json.size (Json.num m) = 1 from rfl]
      exact intChars_length_pos m
    | str s =>
      rw [show printJson d (Json.str s) = '"' :: escapeString s ++ ['"'] from rfl,
        show Json.size (Json.str s) = 1 from rfl]
      simp
    | arr xs =>
      cases xs with
      | nil =>
        rw [show printJson d (Json.arr []) = ['[', ']'] from rfl,
          show Json.size (Json.arr []) = 1 from rfl]
        simp
      | cons x xs =>
        have helems : ∀ (ys : List Json) (y : Json) (dd : Nat),
            Json.sizeList (y :: ys) ≤ n →
            Json.sizeList (y :: ys) ≤ (printElems dd (y :: ys)).length := by
          intro ys
          induction ys with
          | nil =>
            intro y dd hy
            have hx : Json.sizeList [y] = Json.size y + 0 := rfl
            rw [show printElems dd [y] = indentChars (dd + 1) ++ printJson (dd + 1) y
              from rfl]
            have := ih y (by omega) (dd + 1)
            simp only [List.length_append]
            omega
          | cons y' ys' ihl =>
            intro y dd hy
            have hx : Json.sizeList (y :: y' :: ys') =
              Json.size y + Json.sizeList (y' :: ys') := rfl
            rw [show printElems dd (y :: y' :: ys') = indentChars (dd + 1) ++
              printJson (dd + 1) y ++ ',' :: '\n' :: printElems dd (y' :: ys') from rfl]
            have h1 := ih y (by have := Json.size_pos y'; have := Json.size_pos y; omega)
              (dd + 1)
            have h2 := ihl y' dd (by have := Json.size_pos y; omega)
            simp only [List.length_append, List.length_cons]
            omega
        have hsz : Json.size (Json.arr (x :: xs)) = 1 + Json.sizeList (x :: xs) := rfl
        rw [show printJson d (Json.arr (x :: xs)) =
          '[' :: '\n' :: printElems d (x :: xs) ++ '\n' :: indentChars d ++ [']' ] from rfl]
        have := helems xs x d (by omega)
        simp only [List.length_cons, List.length_append]
        omega
    | obj fs =>
      cases fs with
      | nil =>
        rw [show printJson d (Json.obj []) = ['{', '}'] from rfl,
          show Json.size (Json.obj []) = 1 from rfl]
        simp
      | cons kv fs =>
        obtain ⟨k, v⟩ := kv
        have hfields : ∀ (gs : List (List Char × Json)) (kk : List Char) (vv : Json)
            (dd : Nat), Json.sizeFields ((kk, vv) :: gs) ≤ n →
            Json.sizeFields ((kk, vv) :: gs) ≤ (printFields dd ((kk, vv) :: gs)).length := by
          intro gs
          induction gs with
          | nil =>
            intro kk vv dd hy
            have hx : Json.sizeFields [(kk, vv)] = Json.size vv + 0 := rfl
            rw [show printFields dd [(kk, vv)] = indentChars (dd + 1) ++ '"' ::
              escapeString kk ++ '"' :: ':' :: ' ' :: printJson (dd + 1) vv from rfl]
            have := ih vv (by omega) (dd + 1)
            simp only [List.length_append, List.length_cons]
            omega
          | cons g' gs' ihl =>
            intro kk vv dd hy
            obtain ⟨k', v'⟩ := g'
            have hx : Json.sizeFields ((kk, vv) :: (k', v') :: gs') =
              Json.size vv + Json.sizeFields ((k', v') :: gs') := rfl
            rw [show printFields dd ((kk, vv) :: (k', v') :: gs') = indentChars (dd + 1) ++
              '"' :: escapeString kk ++ '"' :: ':' :: ' ' :: printJson (dd + 1) vv ++
              ',' :: '\n' :: printFields dd ((k', v') :: gs') from rfl]
            have h1 := ih vv (by have := Json.size_pos v'; have := Json.size_pos vv; omega)
              (dd + 1)
            have h2 := ihl k' v' dd (by have := Json.size_pos vv; omega)
            simp only [List.length_append, List.length_cons]
            omega
        have hsz : Json.size (Json.obj ((k, v) :: fs)) =
          1 + Json.sizeFields ((k, v) :: fs) := rfl
        rw [show printJson d (Json.obj ((k, v) :: fs)) =
          '{' :: '\n' :: printFields d ((k, v) :: fs) ++ '\n' :: indentChars d ++ ['}']
          from rfl]
        have := hfields fs k v d (by omega)
        simp only [List.length_cons, List.length_append]
        omega

/-- Top-level serialize-then-parse round trip of the envelope text. -/
theorem parseJson_printJson (v : Json) : parseJson (printJson 0 v) = some v := by
  rw [parseJson]
  have hlen := size_le_printLength (Json.size v) v le_rfl 0
  have h := parseVal_printJson (Json.size v) v 0 (2 * (printJson 0 v).length + 2) []
    le_rfl (by omega) noDigitHead_nil
  rw [List.append_nil] at h
  rw [h]
  rfl

/-! ## Response envelope (`jsonToolResult` in src/mcp/server.mjs) -/

structure ContentItem where
  type : String
  text : List Char
deriving DecidableEq

structure ToolResult where
  content : List ContentItem
  structuredContent : Json

/-- `jsonToolResult`: wrap a payload in the MCP envelope, with the display
text produced by `JSON.stringify(payload, null, 2)` and the payload itself
as `structuredContent`. -/
def jsonToolResult (payload : Json) : ToolResult :=
  { content := [{ type := "text", text := printJson 0 payload }]
    structuredContent := payload }

/-- C3: for every successful call the envelope's `structuredContent` is the
remote payload itself (no transformation), and the single text rendering is
valid JSON parsing back to exactly that payload. -/
theorem claim_C3 (payload : Json) :
    (jsonToolResult payload).structuredContent = payload ∧
    (jsonToolResult payload).content.map (fun item => parseJson item.text) =
      [some payload] := by
  refine ⟨rfl, ?_⟩
  simp only [jsonToolResult, List.map_cons, List.map_nil, parseJson_printJson]

/-! ## The MCP bridge (src/mcp/server.mjs)

Configuration, argument validation (the zod schemas), URL building
(`toRelativePath`, `new URL(rel, BASE_URL)` for the relative-path references
the bridge produces — merge with the base path plus RFC 3986 dot-segment
removal; none of the bridge's paths carries a scheme, a leading `//`, `?` or
`#`, and `encodeURIComponent` escapes all of those), request construction
and the error formatting of `httpJson`.
-/

def isAlphaChar (c : Char) : Bool :=
  decide (65 ≤ c.toNat ∧ c.toNat ≤ 90) || decide (97 ≤ c.toNat ∧ c.toNat ≤ 122)

def isSchemeChar (c : Char) : Bool :=
  isAlphaChar c || isDigitChar c || c = '+' || c = '-' || c = '.'

def schemeRest : List Char → Bool
  | [] => false
  | c :: rest => if c = ':' then true else isSchemeChar c && schemeRest rest

/-- Model of zod's `z.string().url()` validator (which accepts exactly the
strings the `URL` constructor accepts): the essential requirement is a
leading scheme — a letter followed by scheme characters — ending in `:`. -/
def isUrlString (s : List Char) : Bool :=
  match s with
  | c :: rest => isAlphaChar c && schemeRest rest
  | [] => false

def hexUpper (n : Nat) : Char :=
  if n < 10 then Char.ofNat (48 + n) else Char.ofNat (55 + n)

def utf8Bytes (c : Char) : List Nat :=
  let n := c.toNat
  if n < 128 then [n]
  else if n < 2048 then [192 + n / 64, 128 + n % 64]
  else if n < 65536 then [224 + n / 4096, 128 + n / 64 % 64, 128 + n % 64]
  else [240 + n / 262144, 128 + n / 4096 % 64, 128 + n / 64 % 64, 128 + n % 64]

def isUriUnreserved (c : Char) : Bool :=
  isAlphaChar c || isDigitChar c || c = '-' || c = '_' || c = '.' || c = '!' ||
    c = '~' || c = '*' || c = Char.ofNat 39 || c = '(' || c = ')'

/-- `encodeURIComponent`: unreserved characters pass through, everything
else is percent-encoded as its uppercase-hex UTF-8 bytes. -/
def encodeURIComponent (s : List Char) : List Char :=
  (s.map fun c =>
    if isUriUnreserved c then [c]
    else ((utf8Bytes c).map fun b => ['%', hexUpper (b / 16), hexUpper (b % 16)]).flatten).flatten

/-- Split a path into its `/`-separated segments ("" for the empty path). -/
def pathSegs : List Char → List (List Char)
  | [] => [[]]
  | c :: rest =>
    if c = '/' then [] :: pathSegs rest
    else
      match pathSegs rest with
      | seg :: segs => (c :: seg) :: segs
      | [] => [[c]]

def joinSegs : List (List Char) → List Char
  | [] => []
  | [seg] => seg
  | seg :: segs => seg ++ '/' :: joinSegs segs

/-- RFC 3986 §5.2.4 remove_dot_segments, on the segment list: `.` segments
vanish (leaving a trailing slash when final), `..` pops the previous
segment (never above the root). -/
def cleanSegs : List (List Char) → List (List Char) → List (List Char)
  | out, [] => out.reverse
  | out, seg :: rest =>
    if seg = ['.'] then
      if rest = [] then ([] :: out).reverse else cleanSegs out rest
    else if seg = ['.', '.'] then
      let out' := if out.length ≤ 1 then out else out.tail
      if rest = [] then ([] :: out').reverse else cleanSegs out' rest
    else cleanSegs (seg :: out) rest

structure ParsedUrl where
  scheme : List Char
  host : List Char
  path : List Char
deriving DecidableEq

/-- `new URL(rel, base)` for a relative-path reference `rel` (no scheme, no
leading slash, no query/fragment): merge `rel` onto the base path up to its
last slash, then remove dot segments (RFC 3986 §5.2.2–5.2.4). -/
def urlResolve (base : ParsedUrl) (rel : List Char) : ParsedUrl :=
  { base with path := joinSegs (cleanSegs [] ((pathSegs base.path).dropLast ++ pathSegs rel)) }

/-- Locate the `://` marker: scheme before it, authority-plus-path after. -/
def findAuthority : List Char → List Char → Option (List Char × List Char)
  | acc, ':' :: '/' :: '/' :: rest => some (acc.reverse, rest)
  | acc, c :: rest => findAuthority (c :: acc) rest
  | _, [] => none

/-- Parse an absolute base URL string into scheme/host/path (the parts the
bridge's URL building observes); an empty path becomes `/`. -/
def parseBaseUrl (s : List Char) : Option ParsedUrl :=
  match findAuthority [] s with
  | none => none
  | some (scheme, rest) =>
    let host := rest.takeWhile fun c => !(c = '/')
    let pathPart := rest.drop host.length
    some { scheme := scheme, host := host,
           path := if pathPart = [] then ['/'] else pathPart }

/-- `API_BASE.endsWith('/') ? API_BASE : API_BASE + '/'`. -/
def normalizeBase (s : List Char) : List Char :=
  if s.getLast? = some '/' then s else s ++ ['/']

/-- `toRelativePath`: strip exactly one leading slash. -/
def toRelativePath (path : List Char) : List Char :=
  match path with
  | '/' :: rest => rest
  | _ => path

/-! ### Tool registration: argument schemas and dispatch -/

inductive HttpMethod where
  | GET
  | POST
deriving DecidableEq

/-- The zod output of `ingestEventArgs`. -/
structure IngestArgs where
  text : List Char
  lat : Option ℚ
  lon : Option ℚ
  mediaUrl : Option (List Char)
deriving DecidableEq

/-- The zod output of `altRouteArgs` (defaults applied). -/
structure AltRouteArgs where
  originLat : ℚ
  originLon : ℚ
  destLat : ℚ
  destLon : ℚ
deriving DecidableEq

/-- The zod output of `geofenceArgs` (defaults applied). -/
structure GeofenceArgs where
  lat : ℚ
  lon : ℚ
  radiusKm : ℚ
deriving DecidableEq

/-- A JSON-RPC `arguments` object, restricted to the fields the six schemas
mention, each optionally present (zod's type checking of wrongly-typed
fields is outside this model; the validators under test are the length,
url and default rules). -/
structure RawArgs where
  text : Option (List Char) := none
  lat : Option ℚ := none
  lon : Option ℚ := none
  mediaUrl : Option (List Char) := none
  eventId : Option (List Char) := none
  originLat : Option ℚ := none
  originLon : Option ℚ := none
  destLat : Option ℚ := none
  destLon : Option ℚ := none
  radiusKm : Option ℚ := none
deriving DecidableEq

inductive BridgeError where
  | validation (message : List Char)
  | unknownTool (name : List Char)
deriving DecidableEq

/-- `z.object(ingestEventArgs).parse`: `text` required with min length 3,
`lat`/`lon` optional numbers, `mediaUrl` an optional URL string. -/
def zIngestParse (a : RawArgs) : Except BridgeError IngestArgs :=
  match a.text with
  | none => .error (.validation ("Required".data))
  | some t =>
    if t.length < 3 then .error (.validation ("text must be at least 3 characters".data))
    else
      match a.mediaUrl with
      | some u =>
        if isUrlString u then .ok ⟨t, a.lat, a.lon, some u⟩
        else .error (.validation ("Invalid url".data))
      | none => .ok ⟨t, a.lat, a.lon, none⟩

/-- `z.object(explainEventArgs).parse`: `eventId` required, min length 1. -/
def zExplainParse (a : RawArgs) : Except BridgeError (List Char) :=
  match a.eventId with
  | none => .error (.validation ("Required".data))
  | some e =>
    if e.length < 1 then .error (.validation ("eventId is required".data))
    else .ok e

/-- `z.object(altRouteArgs).parse`: every coordinate defaults. -/
def zAltRouteParse (a : RawArgs) : Except BridgeError AltRouteArgs :=
  .ok ⟨a.originLat.getD ((3043 : ℚ) / 1000), a.originLon.getD ((101449 : ℚ) / 1000),
    a.destLat.getD ((3155 : ℚ) / 1000), a.destLon.getD ((101712 : ℚ) / 1000)⟩

/-- `z.object(geofenceArgs).parse`: every field defaults. -/
def zGeofenceParse (a : RawArgs) : Except BridgeError GeofenceArgs :=
  .ok ⟨a.lat.getD ((3043 : ℚ) / 1000), a.lon.getD ((101449 : ℚ) / 1000),
    a.radiusKm.getD 1⟩

/-- The JSON-stringified request body of a POST operation: exactly the
parsed input object the handler passes to `httpJson` (JSON-encoded on the
wire). -/
inductive RequestBody where
  | ingest (args : IngestArgs)
  | altRoute (args : AltRouteArgs)
  | geofence (args : GeofenceArgs)
  | emptyObj
deriving DecidableEq

/-- One `httpJson(path, ...)` invocation: the path handed to `httpJson`,
the HTTP method, and the body (present exactly for POST operations). -/
structure HttpCall where
  path : List Char
  method : HttpMethod
  body : Option RequestBody
deriving DecidableEq

def toolNames : List (List Char) :=
  ["ingest_event".data, "list_events".data, "explain_event".data,
   "alt_route".data, "set_geofence_alert".data, "simulate_replay".data]

/-- The dispatcher: look the tool name up in the registry, validate the
arguments against its schema, and produce the single outbound HTTP call of
its handler — or fail with a validation / unknown-tool error, in which case
no call is produced. -/
def dispatchTool (name : List Char) (args : RawArgs) : Except BridgeError HttpCall :=
  if name = "ingest_event".data then
    (zIngestParse args).map fun i => ⟨"/ingest".data, .POST, some (.ingest i)⟩
  else if name = "list_events".data then
    .ok ⟨"/events".data, .GET, none⟩
  else if name = "explain_event".data then
    (zExplainParse args).map fun eid =>
      ⟨"/events/".data ++ encodeURIComponent eid ++ "/explain".data, .GET, none⟩
  else if name = "alt_route".data then
    (zAltRouteParse args).map fun r => ⟨"/routes/alt".data, .POST, some (.altRoute r)⟩
  else if name = "set_geofence_alert".data then
    (zGeofenceParse args).map fun g => ⟨"/alerts/geofence".data, .POST, some (.geofence g)⟩
  else if name = "simulate_replay".data then
    .ok ⟨"/simulate/replay".data, .POST, some .emptyObj⟩
  else
    .error (.unknownTool name)

/-- Number of outbound HTTP requests a dispatch outcome performs. -/
def networkCallCount : Except BridgeError HttpCall → Nat
  | .ok _ => 1
  | .error _ => 0

/-! ### `httpJson`: request resolution and the failure path -/

structure HttpResponse where
  status : Nat
  statusText : List Char
  bodyText : List Char
deriving DecidableEq

/-- `response.ok`: status in the range 200–299. -/
def response_ok (status : Nat) : Bool :=
  decide (200 ≤ status) && decide (status ≤ 299)

def natChars (n : Nat) : List Char :=
  if n = 0 then ['0'] else natDigits n

inductive HttpFailure where
  | requestFailed (pathname : List Char) (status : Nat) (statusText : List Char)
      (bodyText : List Char)
  | invalidJson
deriving DecidableEq

/-- The message of the `Error` thrown by `httpJson` on a non-ok response. -/
def HttpFailure.message : HttpFailure → List Char
  | .requestFailed pathname status statusText bodyText =>
    "Request to ".data ++ pathname ++ " failed: ".data ++ natChars status ++
      ' ' :: statusText ++ '\n' :: bodyText
  | .invalidJson => "Unexpected end of JSON input".data

/-- `httpJson` given the remote response: resolve the URL against the base,
then either return the parsed JSON payload (ok response) or throw exactly
one error for the attempted request. -/
def httpJson (base : ParsedUrl) (call : HttpCall) (resp : HttpResponse) :
    Except HttpFailure Json :=
  let url := urlResolve base (toRelativePath call.path)
  if response_ok resp.status then
    match parseJson resp.bodyText with
    | some j => .ok j
    | none => .error .invalidJson
  else
    .error (.requestFailed url.path resp.status resp.statusText resp.bodyText)

/-! ### Startup (the `API_BASE` guard) and the proxy-route error helper -/

structure BridgeConfig where
  apiBase : List Char
deriving DecidableEq

inductive StartupResult where
  | exit (code : Nat) (message : List Char)
  | started (config : BridgeConfig) (registeredTools : List (List Char))
deriving DecidableEq

/-- Process startup: `process.env.API_BASE` is `none` when absent; a falsy
value (absent or empty) prints the diagnostic and exits with code 1 before
any tool is registered; otherwise the six tools are registered. -/
def startup (apiBaseEnv : Option (List Char)) : StartupResult :=
  match apiBaseEnv with
  | none =>
    .exit 1 ("Missing API_BASE env var. Set API_BASE to the API Gateway base URL.".data)
  | some v =>
    if v = [] then
      .exit 1 ("Missing API_BASE env var. Set API_BASE to the API Gateway base URL.".data)
    else
      .started ⟨v⟩ toolNames

/-- `BackendRequestError` (src/src/lib/server-api.ts). -/
structure BackendRequestError where
  message : List Char
  status : Nat
  payload : List Char
deriving DecidableEq

/-- What `callBackend` throws on a non-ok backend response. -/
def callBackendFailure (pathname : List Char) (status : Nat) (bodyText : List Char) :
    BackendRequestError :=
  ⟨"Backend request to ".data ++ pathname ++ " failed with ".data ++ natChars status,
    status, bodyText⟩

/-- The caught value in an API route's `catch`: either a
`BackendRequestError` (the `instanceof` test) or anything else. -/
inductive CaughtError where
  | backend (e : BackendRequestError)
  | other
deriving DecidableEq

structure ErrorResponse where
  status : Nat
  body : Json

/-- `backendErrorResponse` (src/src/lib/api-route-helpers.ts). -/
def backendErrorResponse (error : CaughtError) (fallbackMessage : List Char) :
    ErrorResponse :=
  match error with
  | .backend e =>
    { status := e.status,
      body := Json.obj [("message".data, Json.str fallbackMessage),
                        ("details".data, Json.str e.payload)] }
  | .other =>
    { status := 500, body := Json.obj [("message".data, Json.str fallbackMessage)] }

/-! ### URL resolution algebra -/

/-- Segments of a path whose every segment differs from `.` and `..`. -/
def noDotSegs (p : List Char) : Bool :=
  (pathSegs p).all fun seg => decide (seg ≠ ['.']) && decide (seg ≠ ['.', '.'])

theorem pathSegs_ne_nil : ∀ l : List Char, pathSegs l ≠ [] := by
  intro l
  cases l with
  | nil => simp [pathSegs]
  | cons c rest =>
    rw [pathSegs]
    split
    · simp
    · split <;> simp

theorem joinSegs_pathSegs : ∀ l : List Char, joinSegs (pathSegs l) = l := by
  intro l
  induction l with
  | nil => rfl
  | cons c rest ih =>
    obtain ⟨s0, ss, hs⟩ := List.exists_cons_of_ne_nil (pathSegs_ne_nil rest)
    rw [pathSegs]
    split
    · rename_i hc
      subst hc
      rw [hs, show joinSegs ([] :: s0 :: ss) = '/' :: joinSegs (s0 :: ss) from rfl, ← hs, ih]
    · rw [hs]
      cases ss with
      | nil =>
        rw [hs] at ih
        simp only [joinSegs] at ih ⊢
        rw [ih]
      | cons s1 ss' =>
        rw [hs] at ih
        rw [show joinSegs ((c :: s0) :: s1 :: ss') =
          (c :: s0) ++ '/' :: joinSegs (s1 :: ss') from rfl, ← ih]
        rfl

theorem pathSegs_append_slash (a b : List Char) :
    pathSegs (a ++ '/' :: b) = pathSegs a ++ pathSegs b := by
  induction a with
  | nil => simp [pathSegs]
  | cons c a ih =>
    simp only [List.cons_append]
    rw [pathSegs]
    conv_rhs => rw [pathSegs]
    split
    · rw [ih]
      simp
    · obtain ⟨s0, ss, hs⟩ := List.exists_cons_of_ne_nil (pathSegs_ne_nil a)
      rw [ih, hs]
      simp

theorem cleanSegs_no_dots :
    ∀ (segs out : List (List Char)),
      (∀ seg ∈ segs, seg ≠ ['.'] ∧ seg ≠ ['.', '.']) →
      cleanSegs out segs = out.reverse ++ segs := by
  intro segs
  induction segs with
  | nil => intro out _; simp [cleanSegs]
  | cons seg rest ih =>
    intro out h
    obtain ⟨h1, h2⟩ := h seg (by simp)
    simp only [cleanSegs]
    rw [if_neg h1, if_neg h2, ih (seg :: out) (fun x hx => h x (by simp [hx]))]
    simp

theorem joinSegs_append :
    ∀ (A B : List (List Char)), A ≠ [] → B ≠ [] →
      joinSegs (A ++ B) = joinSegs A ++ '/' :: joinSegs B := by
  intro A
  induction A with
  | nil => intro B h _; exact absurd rfl h
  | cons s A' ih =>
    intro B _ hB
    cases A' with
    | nil =>
      obtain ⟨b0, bs, hb⟩ := List.exists_cons_of_ne_nil hB
      rw [hb]
      rfl
    | cons s1 A'' =>
      have h1 : joinSegs (s :: ((s1 :: A'') ++ B)) =
          s ++ '/' :: joinSegs ((s1 :: A'') ++ B) := by
        obtain ⟨c0, cs, hc⟩ := List.exists_cons_of_ne_nil
          (show (s1 :: A'') ++ B ≠ [] by simp)
        rw [hc]
        rfl
      calc joinSegs ((s :: s1 :: A'') ++ B)
          = joinSegs (s :: ((s1 :: A'') ++ B)) := rfl
        _ = s ++ '/' :: joinSegs ((s1 :: A'') ++ B) := h1
        _ = s ++ '/' :: (joinSegs (s1 :: A'') ++ '/' :: joinSegs B) := by
            rw [ih B (by simp) hB]
        _ = (s ++ '/' :: joinSegs (s1 :: A'')) ++ '/' :: joinSegs B := by simp
        _ = joinSegs (s :: s1 :: A'') ++ '/' :: joinSegs B := rfl

/-- Because the configured base URL is normalized to end with a slash,
relative resolution appends the template path after the base URL's own
path prefix. -/
theorem urlResolve_base_path (base : ParsedUrl) (pfx rel : List Char)
    (hb : base.path = pfx ++ ['/'])
    (h1 : noDotSegs pfx = true) (h2 : noDotSegs rel = true) :
    (urlResolve base rel).path = base.path ++ rel := by
  have hnd : ∀ seg ∈ pathSegs pfx ++ pathSegs rel, seg ≠ ['.'] ∧ seg ≠ ['.', '.'] := by
    rw [noDotSegs, List.all_eq_true] at h1 h2
    intro seg hseg
    rcases List.mem_append.mp hseg with h | h
    · simpa using h1 seg h
    · simpa using h2 seg h
  rw [show (urlResolve base rel).path =
    joinSegs (cleanSegs [] ((pathSegs base.path).dropLast ++ pathSegs rel)) from rfl, hb]
  rw [show pfx ++ ['/'] = pfx ++ '/' :: ([] : List Char) from rfl, pathSegs_append_slash]
  rw [show pathSegs ([] : List Char) = [[]] from rfl, List.dropLast_concat]
  rw [cleanSegs_no_dots _ [] hnd]
  rw [List.reverse_nil, List.nil_append]
  rw [joinSegs_append _ _ (pathSegs_ne_nil pfx) (pathSegs_ne_nil rel),
    joinSegs_pathSegs, joinSegs_pathSegs]
  simp

theorem normalizeBase_getLast (s : List Char) :
    (normalizeBase s).getLast? = some '/' := by
  rw [normalizeBase]
  split
  · assumption
  · exact List.getLast?_concat s

theorem findAuthority_suffix :
    ∀ (s acc sc rest : List Char), findAuthority acc s = some (sc, rest) →
      rest.IsSuffix s := by
  intro s
  induction s with
  | nil => intro acc sc rest h; simp [findAuthority] at h
  | cons c s' ih =>
    intro acc sc rest h
    rw [findAuthority.eq_def] at h
    split at h
    · rename_i heq
      injection h with h'
      injection h' with h1 h2
      subst h2
      injection heq with e1 e2
      rw [e2]
      exact ⟨[c, '/', '/'], rfl⟩
    · rename_i x3 c2 rest2 heq
      injection heq with e1 e2
      subst e1
      subst e2
      exact (ih _ sc rest h).trans ⟨[c], rfl⟩
    · simp at h

theorem parseBaseUrl_slash (s : List Char) (u : ParsedUrl)
    (hs : s.getLast? = some '/') (h : parseBaseUrl s = some u) :
    u.path.getLast? = some '/' := by
  rw [parseBaseUrl] at h
  split at h
  · simp at h
  · rename_i sc rest heq
    simp only [Option.some.injEq] at h
    subst h
    simp only
    split
    · rfl
    · rename_i hne
      have hsub : (rest.drop (rest.takeWhile fun c => !(c = '/')).length).IsSuffix rest :=
        List.drop_suffix _ _
      have h1 : (rest.drop (rest.takeWhile fun c => !(c = '/')).length).IsSuffix s :=
        hsub.trans (findAuthority_suffix s [] sc rest heq)
      obtain ⟨t, ht⟩ := h1
      rw [← ht, List.getLast?_append_of_ne_nil t hne] at hs
      exact hs

/-! ## Claim theorems for the bridge -/

/-- C1: arguments failing a tool's declared validator (short `text`, empty
`eventId`, non-URL `mediaUrl`) make the dispatcher return a validation
error with no network call; valid `ingest_event` arguments proceed to the
single dispatch. -/
theorem claim_C1 :
    (∀ (a : RawArgs) (t : List Char), a.text = some t → t.length < 3 →
      dispatchTool ("ingest_event".data) a =
        .error (.validation ("text must be at least 3 characters".data)) ∧
      networkCallCount (dispatchTool ("ingest_event".data) a) = 0) ∧
    (∀ (a : RawArgs) (t u : List Char), a.text = some t → 3 ≤ t.length →
      a.mediaUrl = some u → isUrlString u = false →
      dispatchTool ("ingest_event".data) a = .error (.validation ("Invalid url".data)) ∧
      networkCallCount (dispatchTool ("ingest_event".data) a) = 0) ∧
    (∀ a : RawArgs, a.eventId = some [] →
      dispatchTool ("explain_event".data) a =
        .error (.validation ("eventId is required".data)) ∧
      networkCallCount (dispatchTool ("explain_event".data) a) = 0) ∧
    (∀ (a : RawArgs) (t : List Char), a.text = some t → 3 ≤ t.length →
      (a.mediaUrl = none ∨ ∃ u, a.mediaUrl = some u ∧ isUrlString u = true) →
      dispatchTool ("ingest_event".data) a =
        .ok ⟨"/ingest".data, .POST, some (.ingest ⟨t, a.lat, a.lon, a.mediaUrl⟩)⟩ ∧
      networkCallCount (dispatchTool ("ingest_event".data) a) = 1) := by
  refine ⟨?_, ?_, ?_, ?_⟩
  · intro a t ht hlen
    have hz : zIngestParse a = .error (.validation ("text must be at least 3 characters".data)) := by
      simp only [zIngestParse, ht]
      rw [if_pos hlen]
    have hd : dispatchTool ("ingest_event".data) a =
        .error (.validation ("text must be at least 3 characters".data)) := by
      rw [dispatchTool, if_pos rfl, hz]
      rfl
    exact ⟨hd, by rw [hd]; rfl⟩
  · intro a t u ht hlen hu hurl
    have hz : zIngestParse a = .error (.validation ("Invalid url".data)) := by
      simp only [zIngestParse, ht, hu]
      rw [if_neg (by omega), if_neg (by simp [hurl])]
    have hd : dispatchTool ("ingest_event".data) a =
        .error (.validation ("Invalid url".data)) := by
      rw [dispatchTool, if_pos rfl, hz]
      rfl
    exact ⟨hd, by rw [hd]; rfl⟩
  · intro a he
    have hz : zExplainParse a = .error (.validation ("eventId is required".data)) := by
      simp only [zExplainParse, he]
      rw [if_pos (by simp)]
    have hd : dispatchTool ("explain_event".data) a =
        .error (.validation ("eventId is required".data)) := by
      rw [dispatchTool, if_neg (by decide), if_neg (by decide), if_pos rfl, hz]
      rfl
    exact ⟨hd, by rw [hd]; rfl⟩
  · intro a t ht hlen hmu
    have hz : zIngestParse a = .ok ⟨t, a.lat, a.lon, a.mediaUrl⟩ := by
      rcases hmu with hnone | ⟨u, hu, hurl⟩
      · simp only [zIngestParse, ht, hnone]
        rw [if_neg (by omega)]
      · simp only [zIngestParse, ht, hu]
        rw [if_neg (by omega), if_pos hurl]
    have hd : dispatchTool ("ingest_event".data) a =
        .ok ⟨"/ingest".data, .POST, some (.ingest ⟨t, a.lat, a.lon, a.mediaUrl⟩)⟩ := by
      rw [dispatchTool, if_pos rfl, hz]
      rfl
    exact ⟨hd, by rw [hd]; rfl⟩

/-- C1 witness: a 2-character text fails validation; length-3 text with a
valid `mediaUrl` dispatches one POST to `/ingest`. -/
theorem claim_C1_witness :
    dispatchTool ("ingest_event".data) { text := some ("ab".data) } =
      .error (.validation ("text must be at least 3 characters".data)) ∧
    dispatchTool ("ingest_event".data)
        { text := some ("ab".data), mediaUrl := some ("not a url".data) } =
      .error (.validation ("text must be at least 3 characters".data)) ∧
    dispatchTool ("ingest_event".data)
        { text := some ("flood at bridge".data), mediaUrl := some ("no colon here".data) } =
      .error (.validation ("Invalid url".data)) ∧
    dispatchTool ("explain_event".data) { eventId := some [] } =
      .error (.validation ("eventId is required".data)) ∧
    dispatchTool ("ingest_event".data)
        { text := some ("flood at bridge".data),
          mediaUrl := some ("https://example.com/a.jpg".data) } =
      .ok ⟨"/ingest".data, .POST, some (.ingest ⟨"flood at bridge".data, none, none,
        some ("https://example.com/a.jpg".data)⟩)⟩ := by
  refine ⟨?_, ?_, ?_, ?_, ?_⟩
  · exact (claim_C1.1 _ _ rfl (by decide)).1
  · exact (claim_C1.1 _ _ rfl (by decide)).1
  · exact (claim_C1.2.1 _ _ _ rfl (by decide) rfl (by decide)).1
  · exact (claim_C1.2.2.1 _ rfl).1
  · exact (claim_C1.2.2.2 _ _ rfl (by decide)
      (Or.inr ⟨_, rfl, by decide⟩)).1

/-- C5: a request naming an operation outside the six registered tool names
yields an unknown-tool error and performs no network call. -/
theorem claim_C5 : ∀ (name : List Char) (a : RawArgs), name ∉ toolNames →
    dispatchTool name a = .error (.unknownTool name) ∧
    networkCallCount (dispatchTool name a) = 0 := by
  intro name a h
  have h1 : ¬name = "ingest_event".data := fun e => h (by rw [e]; simp [toolNames])
  have h2 : ¬name = "list_events".data := fun e => h (by rw [e]; simp [toolNames])
  have h3 : ¬name = "explain_event".data := fun e => h (by rw [e]; simp [toolNames])
  have h4 : ¬name = "alt_route".data := fun e => h (by rw [e]; simp [toolNames])
  have h5 : ¬name = "set_geofence_alert".data := fun e => h (by rw [e]; simp [toolNames])
  have h6 : ¬name = "simulate_replay".data := fun e => h (by rw [e]; simp [toolNames])
  have hd : dispatchTool name a = .error (.unknownTool name) := by
    rw [dispatchTool, if_neg h1, if_neg h2, if_neg h3, if_neg h4, if_neg h5, if_neg h6]
  exact ⟨hd, by rw [hd]; rfl⟩

/-- C5 witness: the name "bogus" is not registered and dispatches to an
unknown-tool error. -/
theorem claim_C5_witness :
    ("bogus".data ∉ toolNames) ∧
    dispatchTool ("bogus".data) {} = .error (.unknownTool ("bogus".data)) ∧
    networkCallCount (dispatchTool ("bogus".data) {}) = 0 := by
  refine ⟨by decide, ?_⟩
  exact claim_C5 ("bogus".data) {} (by decide)

/-- C8: omitted `alt_route` coordinates are filled with the documented
defaults 3.043 / 101.449 / 3.155 / 101.712, and omitted `set_geofence_alert`
fields with 3.043 / 101.449 / 1, before the request body is built. -/
theorem claim_C8 : ∀ (a : RawArgs) (r : AltRouteArgs) (g : GeofenceArgs),
    zAltRouteParse a = .ok r → zGeofenceParse a = .ok g →
    (a.originLat = none → r.originLat = (3043 : ℚ) / 1000) ∧
    (a.originLon = none → r.originLon = (101449 : ℚ) / 1000) ∧
    (a.destLat = none → r.destLat = (3155 : ℚ) / 1000) ∧
    (a.destLon = none → r.destLon = (101712 : ℚ) / 1000) ∧
    (a.lat = none → g.lat = (3043 : ℚ) / 1000) ∧
    (a.lon = none → g.lon = (101449 : ℚ) / 1000) ∧
    (a.radiusKm = none → g.radiusKm = 1) ∧
    dispatchTool ("alt_route".data) a = .ok ⟨"/routes/alt".data, .POST, some (.altRoute r)⟩ ∧
    dispatchTool ("set_geofence_alert".data) a =
      .ok ⟨"/alerts/geofence".data, .POST, some (.geofence g)⟩ := by
  intro a r g hr hg
  simp only [zAltRouteParse, Except.ok.injEq] at hr
  simp only [zGeofenceParse, Except.ok.injEq] at hg
  subst hr
  subst hg
  refine ⟨?_, ?_, ?_, ?_, ?_, ?_, ?_, ?_, ?_⟩
  · intro h; simp [h]
  · intro h; simp [h]
  · intro h; simp [h]
  · intro h; simp [h]
  · intro h; simp [h]
  · intro h; simp [h]
  · intro h; simp [h]
  · rw [dispatchTool, if_neg (by decide), if_neg (by decide), if_neg (by decide),
      if_pos rfl]
    rfl
  · rw [dispatchTool, if_neg (by decide), if_neg (by decide), if_neg (by decide),
      if_neg (by decide), if_pos rfl]
    rfl

/-- C8 witness: with no arguments, both parsers fill every documented
default. -/
theorem claim_C8_witness :
    zAltRouteParse {} = .ok ⟨(3043 : ℚ) / 1000, (101449 : ℚ) / 1000, (3155 : ℚ) / 1000,
      (101712 : ℚ) / 1000⟩ ∧
    ((3043 : ℚ) / 1000 = (3043 : ℚ) / 1000 ∧ (1 : ℚ) = 1) ∧
    dispatchTool ("alt_route".data) {} = .ok ⟨"/routes/alt".data, .POST,
      some (.altRoute ⟨(3043 : ℚ) / 1000, (101449 : ℚ) / 1000, (3155 : ℚ) / 1000,
        (101712 : ℚ) / 1000⟩)⟩ := by
  have h := claim_C8 {} ⟨(3043 : ℚ) / 1000, (101449 : ℚ) / 1000, (3155 : ℚ) / 1000,
    (101712 : ℚ) / 1000⟩ ⟨(3043 : ℚ) / 1000, (101449 : ℚ) / 1000, 1⟩ rfl rfl
  exact ⟨rfl, ⟨h.1 rfl, h.2.2.2.2.2.2.1 rfl⟩, h.2.2.2.2.2.2.2.1⟩

/-- C9: with the base-URL environment variable absent, the bridge prints
the diagnostic and exits with code 1 — a non-zero code — before any tool is
registered. -/
theorem claim_C9 :
    startup none =
      .exit 1 ("Missing API_BASE env var. Set API_BASE to the API Gateway base URL.".data) ∧
    (∀ (cfg : BridgeConfig) (tools : List (List Char)), startup none ≠ .started cfg tools) ∧
    (∀ (code : Nat) (msg : List Char), startup none = .exit code msg → code ≠ 0) := by
  refine ⟨rfl, ?_, ?_⟩
  · intro cfg tools h
    simp [startup] at h
  · intro code msg h
    simp only [startup, StartupResult.exit.injEq] at h
    omega

/-- C9 witness: the exit carries code 1, which is non-zero. -/
theorem claim_C9_witness :
    startup none =
      .exit 1 ("Missing API_BASE env var. Set API_BASE to the API Gateway base URL.".data) ∧
    (1 : Nat) ≠ 0 := by
  exact ⟨claim_C9.1, claim_C9.2.2 1 _ claim_C9.1⟩

/-- C2: the bridge strips exactly one leading slash from the template,
resolves it relative to the base URL — normalized to end with a slash, so
the base's own path prefix survives resolution — substitutes the
percent-encoded `eventId` into the `{id}` position, and produces exactly
one HTTP request per valid call, with a body exactly for POST operations. -/
theorem claim_C2 :
    (∀ p : List Char, toRelativePath ('/' :: p) = p) ∧
    (∀ (c : Char) (p : List Char), c ≠ '/' → toRelativePath (c :: p) = c :: p) ∧
    (∀ s : List Char, (normalizeBase s).getLast? = some '/') ∧
    (∀ s : List Char, s.getLast? = some '/' → normalizeBase s = s) ∧
    (∀ (s : List Char) (u : ParsedUrl), parseBaseUrl (normalizeBase s) = some u →
      u.path.getLast? = some '/') ∧
    (∀ (base : ParsedUrl) (pfx rel : List Char), base.path = pfx ++ ['/'] →
      noDotSegs pfx = true → noDotSegs rel = true →
      (urlResolve base rel).path = base.path ++ rel) ∧
    (∀ (a : RawArgs) (i : IngestArgs), zIngestParse a = .ok i →
      dispatchTool ("ingest_event".data) a =
        .ok ⟨"/ingest".data, .POST, some (.ingest i)⟩ ∧
      networkCallCount (dispatchTool ("ingest_event".data) a) = 1) ∧
    (∀ a : RawArgs, dispatchTool ("list_events".data) a =
      .ok ⟨"/events".data, .GET, none⟩) ∧
    (∀ (a : RawArgs) (eid : List Char), zExplainParse a = .ok eid →
      dispatchTool ("explain_event".data) a =
        .ok ⟨"/events/".data ++ encodeURIComponent eid ++ "/explain".data, .GET, none⟩) ∧
    (∀ (a : RawArgs) (r : AltRouteArgs), zAltRouteParse a = .ok r →
      dispatchTool ("alt_route".data) a =
        .ok ⟨"/routes/alt".data, .POST, some (.altRoute r)⟩) ∧
    (∀ (a : RawArgs) (g : GeofenceArgs), zGeofenceParse a = .ok g →
      dispatchTool ("set_geofence_alert".data) a =
        .ok ⟨"/alerts/geofence".data, .POST, some (.geofence g)⟩) ∧
    (∀ a : RawArgs, dispatchTool ("simulate_replay".data) a =
      .ok ⟨"/simulate/replay".data, .POST, some .emptyObj⟩) := by
  refine ⟨fun p => rfl, ?_, normalizeBase_getLast, ?_, ?_, urlResolve_base_path,
    ?_, ?_, ?_, ?_, ?_, ?_⟩
  · intro c p hc
    rw [toRelativePath.eq_def]
    split
    · rename_i r heq
      injection heq with e1 e2
      exact absurd e1 hc
    · rfl
  · intro s h
    rw [normalizeBase, if_pos h]
  · intro s u h
    exact parseBaseUrl_slash _ u (normalizeBase_getLast s) h
  · intro a i hz
    have hd : dispatchTool ("ingest_event".data) a =
        .ok ⟨"/ingest".data, .POST, some (.ingest i)⟩ := by
      rw [dispatchTool, if_pos rfl, hz]
      rfl
    exact ⟨hd, by rw [hd]; rfl⟩
  · intro a
    rw [dispatchTool, if_neg (by decide), if_pos rfl]
  · intro a eid hz
    rw [dispatchTool, if_neg (by decide), if_neg (by decide), if_pos rfl, hz]
    rfl
  · intro a r hz
    rw [dispatchTool, if_neg (by decide), if_neg (by decide), if_neg (by decide),
      if_pos rfl, hz]
    rfl
  · intro a g hz
    rw [dispatchTool, if_neg (by decide), if_neg (by decide), if_neg (by decide),
      if_neg (by decide), if_pos rfl, hz]
    rfl
  · intro a
    rw [dispatchTool, if_neg (by decide), if_neg (by decide), if_neg (by decide),
      if_neg (by decide), if_neg (by decide), if_pos rfl]

/-- C2 witness: a base URL with a path prefix keeps it after resolution; a
concrete `explain_event` call produces the substituted, slash-stripped GET
request; stripping applies to exactly one slash. -/
theorem claim_C2_witness :
    toRelativePath ('x' :: "yz".data) = 'x' :: "yz".data ∧
    (urlResolve ⟨"https".data, "api.example.com".data, "/prod/".data⟩
        ("routes/alt".data)).path = "/prod/".data ++ "routes/alt".data ∧
    parseBaseUrl (normalizeBase ("https://h/api".data)) =
      some ⟨"https".data, "h".data, "/api/".data⟩ ∧
    dispatchTool ("explain_event".data) { eventId := some ("ab c".data) } =
      .ok ⟨"/events/".data ++ encodeURIComponent ("ab c".data) ++ "/explain".data,
        .GET, none⟩ ∧
    encodeURIComponent ("ab c".data) = "ab%20c".data := by
  obtain ⟨h1, h2, h3, h4, h5, h6, h7, h8, h9, h10, h11, h12⟩ := claim_C2
  refine ⟨h2 'x' _ (by decide), ?_, by decide, h9 _ ("ab c".data) (by rfl), by decide⟩
  exact h6 ⟨"https".data, "api.example.com".data, "/prod/".data⟩ ("/prod".data)
    ("routes/alt".data) (by decide) (by decide) (by decide)

/-- C4: a non-success response makes `httpJson` raise exactly one error
carrying the attempted path, the status and the raw body text; the
rendered message embeds the raw body verbatim; the proxy helper propagates
a `BackendRequestError`'s status and payload as the HTTP error response. -/
theorem claim_C4 :
    (∀ (base : ParsedUrl) (call : HttpCall) (resp : HttpResponse),
      response_ok resp.status = false →
      httpJson base call resp = .error (.requestFailed
        (urlResolve base (toRelativePath call.path)).path resp.status resp.statusText
        resp.bodyText)) ∧
    (∀ status : Nat, 400 ≤ status → response_ok status = false) ∧
    (∀ (pathname : List Char) (status : Nat) (statusText bodyText : List Char),
      (HttpFailure.requestFailed pathname status statusText bodyText).message =
        "Request to ".data ++ pathname ++ " failed: ".data ++ natChars status ++
          ' ' :: statusText ++ '\n' :: bodyText ∧
      bodyText.IsSuffix
        ((HttpFailure.requestFailed pathname status statusText bodyText).message)) ∧
    (∀ (e : BackendRequestError) (fallback : List Char),
      backendErrorResponse (.backend e) fallback =
        { status := e.status,
          body := Json.obj [("message".data, Json.str fallback),
                            ("details".data, Json.str e.payload)] }) ∧
    (∀ (pathname : List Char) (status : Nat) (bodyText : List Char),
      (callBackendFailure pathname status bodyText).status = status ∧
      (callBackendFailure pathname status bodyText).payload = bodyText) := by
  refine ⟨?_, ?_, ?_, fun e fallback => rfl, fun p st b => ⟨rfl, rfl⟩⟩
  · intro base call resp h
    simp only [httpJson]
    rw [if_neg (by simp [h])]
  · intro status h
    simp only [response_ok]
    simp
    omega
  · intro pathname status statusText bodyText
    refine ⟨rfl, ?_⟩
    refine ⟨"Request to ".data ++ pathname ++ " failed: ".data ++ natChars status ++
      ' ' :: statusText ++ ['\n'], ?_⟩
    simp [HttpFailure.message]

/-- C4 witness: a 500 response yields the error carrying path, status and
raw body; 404 is non-success. -/
theorem claim_C4_witness :
    httpJson ⟨"https".data, "h".data, "/".data⟩ ⟨"/events".data, .GET, none⟩
        ⟨500, "Internal Server Error".data, "boom".data⟩ =
      .error (.requestFailed
        (urlResolve ⟨"https".data, "h".data, "/".data⟩
          (toRelativePath ("/events".data))).path 500 ("Internal Server Error".data)
        ("boom".data)) ∧
    response_ok 404 = false := by
  exact ⟨claim_C4.1 _ _ _ (by decide), claim_C4.2.1 404 (by decide)⟩

end SAR